import Mathlib

/-!
CPPM analyzer: decoding engine.

A shallow embedding of `source/CPPMAnalyzer.cpp` (the worker thread of the
CPPM analyzer together with `SamplesToUs` and `CorrectSyncDir`) and the
properties of the decoding engine established on it.

Conventions of the embedding.

* `U64` values are natural numbers; subtraction and multiplication wrap
  modulo `2 ^ 64` (`subU64`, and the product inside `SamplesToUs`).
* The slot counter `channel` is a `U8`: its increment wraps modulo `256`.
* The entries of `prevs` are C++ `double`s.  Every value stored there is the
  conversion of an unsigned 64-bit integer, hence a non-negative integer, and
  is represented by that integer; `toDouble` is the conversion of an integer
  to the nearest `double` (ties to even).
* Undefined behaviour of the C++ code (division by zero, indexing `prevs`
  outside its bounds) is an explicit result `undefined`.
* The channel data is the current sample number and the list of the edges
  still to come; when the list is exhausted `AdvanceToNextEdge` blocks and the
  run produces nothing more.
* The calls on the results object (`AddMarker`, `AddFrame`, `CommitResults`)
  and `ReportProgress` are recorded, in order, as a list of `Event`s.
-/

namespace CPPM

/-! ## Data model -/

/-- Level of the digital line (`BitState` of the analyzer SDK). -/
inductive BitState where
  | BIT_LOW
  | BIT_HIGH
deriving DecidableEq, Repr

/-- Modelled from the spec: an edge of the Edge Source, whose class
(`AnalyzerChannelData`) is declared outside the sources at hand.  An edge is
an absolute sample position together with the bit level after the edge. -/
structure Edge where
  sample : Nat
  state : BitState
deriving DecidableEq, Repr

/-- The settings read by the worker thread (`CPPMAnalyzerSettings`); the
integer types of the fields are declared in a header that is not part of the
sources at hand, so the fields are natural numbers. -/
structure CPPMAnalyzerSettings where
  mSyncTime : Nat
  mSyncDir : Nat
  mMaxChan : Nat
  mMinChange : Nat
deriving DecidableEq, Repr

/-- Marker kinds passed to `AddMarker`. -/
inductive MarkerType where
  | Dot
  | ErrorX
  | UpArrow
  | DownArrow
deriving DecidableEq, Repr

/-- The fields of the SDK `Frame` that the worker thread fills in. -/
structure Frame where
  mData1 : Nat
  mData2 : Nat
  mFlags : Nat
  mType : Nat
  mStartingSampleInclusive : Nat
  mEndingSampleInclusive : Nat
deriving DecidableEq, Repr

/-- Modelled from the spec: the error flag of a frame, a constant of the
analyzer SDK (`DISPLAY_AS_ERROR_FLAG`) that is declared outside the sources
at hand; a single bit of `mFlags`. -/
def DISPLAY_AS_ERROR_FLAG : Nat := 128

/-- Calls made by the worker thread on the result sink and the host. -/
inductive Event where
  | AddMarker (sample : Nat) (marker : MarkerType)
  | AddFrame (frame : Frame)
  | CommitResults
  | ReportProgress (sample : Nat)
deriving DecidableEq, Repr

/-! ## Machine arithmetic -/

/-- Subtraction of two `U64` values, wrapping modulo `2 ^ 64`. -/
def subU64 (a b : Nat) : Nat := (a % 2 ^ 64 + 2 ^ 64 - b % 2 ^ 64) % 2 ^ 64

/-- Rounding of `n` to a multiple of `ulp`, to nearest, ties to the even
multiple. -/
def roundNearestEven (ulp n : Nat) : Nat :=
  if 2 * (n % ulp) < ulp then n / ulp * ulp
  else if ulp < 2 * (n % ulp) then (n / ulp + 1) * ulp
  else if n / ulp % 2 = 0 then n / ulp * ulp
  else (n / ulp + 1) * ulp

/-- Search of the spacing of the `double`s around `n`: the least power of two
`ulp` with `n / ulp < 2 ^ 53`. -/
def toDoubleAux : Nat → Nat → Nat → Nat
  | 0, _, n => n
  | fuel + 1, ulp, n =>
    if n / ulp < 2 ^ 53 then roundNearestEven ulp n else toDoubleAux fuel (2 * ulp) n

/-- Conversion of a non-negative integer to `double` (53-bit significand,
round to nearest, ties to even); the result is an integer again.  Integers
below `2 ^ 53` are converted exactly. -/
def toDouble (n : Nat) : Nat := toDoubleAux n 1 n

/-- Absolute value of the difference of two integers. -/
def absDiff (a b : Nat) : Nat := if b ≤ a then a - b else b - a

/-- The function `CPPMAnalyzer::SamplesToUs`, with the sample rate `mSampleRateHz` as first
argument: `(samples * 1000000) / mSampleRateHz` in `U64` arithmetic.  The
division by a zero rate is undefined (`none`). -/
def SamplesToUs (mSampleRateHz samples : Nat) : Option Nat :=
  if mSampleRateHz = 0 then none
  else some ((samples * 1000000) % 2 ^ 64 / mSampleRateHz)

/-- The function `CPPMAnalyzer::CorrectSyncDir`. -/
def CorrectSyncDir (cfg : CPPMAnalyzerSettings) (state : BitState) : Bool :=
  match cfg.mSyncDir with
  | 1 => state == BitState.BIT_LOW
  | 2 => state == BitState.BIT_HIGH
  | _ => true

/-! ## Change detection (the `else if` branch of the decoder loop) -/

/-- What the change-detecting branch of the loop body decides: the marker it
adds (if any), the `mType` of the frame and the table of previous widths. -/
structure Detection where
  marker : Option MarkerType
  mType : Nat
  prevs : List Nat
deriving DecidableEq, Repr

/-- The branch
`else if (std::abs(double(width) - prevs[channel-1]) >= mMinChange
          && prevs[channel-1] != width) { ... }`
of the loop body, for the slot `channel` and the table `prevs`.  Reading
`prevs[channel-1]` outside the table (also for `channel = 0`, where the index
is `-1`) is undefined (`none`). -/
def changeDetector (cfg : CPPMAnalyzerSettings) (width channel : Nat)
    (prevs : List Nat) : Option Detection :=
  if channel = 0 then none
  else
    match prevs[channel - 1]? with
    | none => none
    | some prev =>
      if toDouble cfg.mMinChange ≤ toDouble (absDiff (toDouble width) prev)
          ∧ prev ≠ toDouble width then
        some { marker := some (if prev < toDouble width then MarkerType.UpArrow
                               else MarkerType.DownArrow)
               mType := 1
               prevs := prevs.set (channel - 1) (toDouble width) }
      else
        some { marker := none, mType := 0, prevs := prevs }

/-! ## The decoder loop -/

/-- Result of one iteration of the decoder loop. -/
inductive StepResult where
  | undefined
  | syncGap (channel : Nat) (prevs : List Nat)
  | pulse (events : List Event) (channel : Nat) (prevs : List Nat)
deriving DecidableEq, Repr

/-- The events emitted by an iteration. -/
def StepResult.events : StepResult → List Event
  | StepResult.pulse events _ _ => events
  | _ => []

/-- The position `end - ((end - high)/2)` of the markers of a pulse, in `U64`
arithmetic. -/
def midSample (high end_ : Nat) : Nat := subU64 end_ (subU64 end_ high / 2)

/-- What the overflow branch `if (channel > mMaxChan) { ... }` and the end of
the loop body emit: the error marker, the frame (flagged, `mData2 = 1`),
`CommitResults` and `ReportProgress`. -/
def overflowEvents (width high end_ : Nat) : List Event :=
  [Event.AddMarker (midSample high end_) MarkerType.ErrorX,
   Event.AddFrame
     { mData1 := width, mData2 := 1, mFlags := 0 ||| DISPLAY_AS_ERROR_FLAG, mType := 0,
       mStartingSampleInclusive := high, mEndingSampleInclusive := end_ },
   Event.CommitResults,
   Event.ReportProgress end_]

/-- What the loop body emits for an in-range slot, given the decision `d` of
the change-detecting branch: its marker (if any), the frame, `CommitResults`
and `ReportProgress`. -/
def inRangeEvents (width channel high end_ : Nat) (d : Detection) : List Event :=
  (match d.marker with
   | some m => [Event.AddMarker (midSample high end_) m]
   | none => []) ++
  [Event.AddFrame
     { mData1 := width, mData2 := channel, mFlags := 0, mType := d.mType,
       mStartingSampleInclusive := high, mEndingSampleInclusive := end_ },
   Event.CommitResults,
   Event.ReportProgress end_]

/-- One iteration of the second `for (;;)` loop of `WorkerThread`: `start` is
the sample number on entry, `e1` and `e2` are the two edges the iteration
advances over (`high` and `end` are their positions), `channel` and `prevs`
are the loop-carried variables.  The level tested by `CorrectSyncDir` is
`GetBitState()` after the second advance, the level of `e2`. -/
def decoderStep (cfg : CPPMAnalyzerSettings) (mSampleRateHz : Nat) (start : Nat)
    (e1 e2 : Edge) (channel : Nat) (prevs : List Nat) : StepResult :=
  match SamplesToUs mSampleRateHz (subU64 e2.sample start) with
  | none => StepResult.undefined
  | some width =>
    if cfg.mSyncTime ≤ width ∧ CorrectSyncDir cfg e2.state = true then
      StepResult.syncGap 0 prevs
    else if cfg.mMaxChan < (channel + 1) % 256 then
      StepResult.pulse (overflowEvents width e1.sample e2.sample) 0 prevs
    else
      match changeDetector cfg width ((channel + 1) % 256) prevs with
      | none => StepResult.undefined
      | some d =>
        StepResult.pulse (inRangeEvents width ((channel + 1) % 256) e1.sample e2.sample d)
          ((channel + 1) % 256) d.prevs

/-- The second `for (;;)` loop of `WorkerThread`, run on the edges still to
come: the list of the results of its iterations.  The loop stops when fewer
than two edges are left (the thread blocks in `AdvanceToNextEdge`, nothing has
been emitted for the iteration in progress) or when an iteration is
undefined. -/
def frameDecoder (cfg : CPPMAnalyzerSettings) (mSampleRateHz : Nat) :
    Nat → Nat → List Nat → List Edge → List StepResult
  | start, channel, prevs, e1 :: e2 :: rest =>
    match decoderStep cfg mSampleRateHz start e1 e2 channel prevs with
    | StepResult.undefined => [StepResult.undefined]
    | StepResult.syncGap c p =>
      StepResult.syncGap c p :: frameDecoder cfg mSampleRateHz e2.sample c p rest
    | StepResult.pulse ev c p =>
      StepResult.pulse ev c p :: frameDecoder cfg mSampleRateHz e2.sample c p rest
  | _, _, _, _ => []

/-- All events of a list of iterations, in order. -/
def traceEvents (trace : List StepResult) : List Event :=
  trace.flatMap StepResult.events

/-! ## Sync acquisition and the worker thread -/

/-- Result of the first `for (;;)` loop of `WorkerThread`. -/
inductive AcquireResult where
  | blocked
  | undefined
  | locked (sample : Nat) (state : BitState) (rest : List Edge)
deriving DecidableEq, Repr

/-- The first `for (;;)` loop of `WorkerThread` ("wait for a clean start"),
from the sample number `cur` on the edges still to come.  Both the inner
`while` and the outer `for` look at the next edge and advance onto it, so one
call handles one edge: the inner loop advances while the interval to the next
edge is below `mSyncTime`; otherwise the outer loop advances and leaves when
`CorrectSyncDir` accepts the level, and goes round again when it does not. -/
def syncAcquire (cfg : CPPMAnalyzerSettings) (mSampleRateHz : Nat) :
    Nat → List Edge → AcquireResult
  | _, [] => AcquireResult.blocked
  | cur, e :: rest =>
    match SamplesToUs mSampleRateHz (subU64 e.sample cur) with
    | none => AcquireResult.undefined
    | some us =>
      if us < cfg.mSyncTime then syncAcquire cfg mSampleRateHz e.sample rest
      else if CorrectSyncDir cfg e.state = true then AcquireResult.locked e.sample e.state rest
      else syncAcquire cfg mSampleRateHz e.sample rest

/-- The function `CPPMAnalyzer::WorkerThread`, started at sample number `sample` with the
edges still to come: the events it emits. -/
def WorkerThread (cfg : CPPMAnalyzerSettings) (mSampleRateHz : Nat) (sample : Nat)
    (edges : List Edge) : List Event :=
  match syncAcquire cfg mSampleRateHz sample edges with
  | AcquireResult.locked pos _ rest =>
    Event.AddMarker pos MarkerType.Dot ::
      traceEvents (frameDecoder cfg mSampleRateHz pos 0 (List.replicate cfg.mMaxChan 0) rest)
  | _ => []

/-! ## Reading the output -/

/-- The frames (decoded observations) among the events, in order. -/
def observations : List Event → List Frame
  | [] => []
  | Event.AddFrame f :: rest => f :: observations rest
  | _ :: rest => observations rest

/-- The positions reported as progress, in order. -/
def progressReports : List Event → List Nat
  | [] => []
  | Event.ReportProgress s :: rest => s :: progressReports rest
  | _ :: rest => progressReports rest

/-- The markers among the events, in order. -/
def markers : List Event → List (Nat × MarkerType)
  | [] => []
  | Event.AddMarker s m :: rest => (s, m) :: markers rest
  | _ :: rest => markers rest

/-- The frame is displayed as an error. -/
def Frame.isError (f : Frame) : Bool := f.mFlags &&& DISPLAY_AS_ERROR_FLAG != 0

/-! ## Synthetic streams -/

/-- The edges of a synthetic frame body starting at sample `start`: each pulse
`(a, b, s1, s2)` is an edge `a` samples after the previous position (level
`s1` after it) and an edge `b` samples later (level `s2`), so that the pulse
spans `a + b` samples. -/
def synthEdges : Nat → List (Nat × Nat × BitState × BitState) → List Edge
  | _, [] => []
  | start, (a, b, s1, s2) :: rest =>
    { sample := start + a, state := s1 } :: { sample := start + a + b, state := s2 } ::
      synthEdges (start + a + b) rest

/-- The sample number after advancing from `cur` over the edges `pre`. -/
def positionAfter (cur : Nat) (pre : List Edge) : Nat :=
  match pre.getLast? with
  | some x => x.sample
  | none => cur

/-- The positions of the lock markers (dots) among the events, in order. -/
def lockMarkers : List Event → List Nat
  | [] => []
  | Event.AddMarker s MarkerType.Dot :: rest => s :: lockMarkers rest
  | _ :: rest => lockMarkers rest

/-- The pulse interval of the data model, in microseconds, between the
positions `prevPos` and `pos` (positions increasing):
`(sample-delta × 1,000,000) / sample-rate-Hz` over the natural numbers,
without any wrap. -/
def pulseIntervalUs (mSampleRateHz prevPos pos : Nat) : Nat :=
  (pos - prevPos) * 1000000 / mSampleRateHz

/-- The sync condition on the edge `x` reached from the position `prevPos`,
in the words of the specification: the sample rate is positive, the pulse
interval from `prevPos` to `x` is at least `mSyncTime` and the level after `x`
satisfies the polarity. -/
def syncConfirmed (cfg : CPPMAnalyzerSettings) (mSampleRateHz prevPos : Nat) (x : Edge) : Bool :=
  decide (0 < mSampleRateHz) &&
    decide (cfg.mSyncTime ≤ pulseIntervalUs mSampleRateHz prevPos x.sample) &&
    CorrectSyncDir cfg x.state

/-- The start and end samples of a list of frames, in order. -/
def frameSamples (fs : List Frame) : List Nat :=
  fs.flatMap (fun f => [f.mStartingSampleInclusive, f.mEndingSampleInclusive])

/-- The change-detecting branch applied in turn to a list of
`(slot, width)` pairs, threading the table; `none` when a read is undefined. -/
def detectAll (cfg : CPPMAnalyzerSettings) : List (Nat × Nat) → List Nat → Option (List Nat)
  | [], prevs => some prevs
  | (s, w) :: rest, prevs =>
    match changeDetector cfg w s prevs with
    | none => none
    | some d => detectAll cfg rest d.prevs

/-- The value of the slot counter after an iteration (`0` when undefined). -/
def StepResult.channel : StepResult → Nat
  | StepResult.undefined => 0
  | StepResult.syncGap c _ => c
  | StepResult.pulse _ c _ => c

/-! ## Notions used to state the properties of runs -/

/-- Modelled from the spec: the value of the `mSyncDir` setting that selects
the polarity "low-is-inactive" (accept only if the level after the gap is
low); the names of the setting values are declared in the settings class,
outside the sources at hand. -/
def LOW_IS_INACTIVE : Nat := 1

/-- Modelled from the spec: the value of the `mSyncDir` setting that selects
the polarity "high-is-inactive" (accept only if the level after the gap is
high); every other value is "auto" (the polarity is not checked). -/
def HIGH_IS_INACTIVE : Nat := 2

/-- The table of previous widths after an iteration (empty when undefined). -/
def StepResult.prevs : StepResult → List Nat
  | StepResult.undefined => []
  | StepResult.syncGap _ p => p
  | StepResult.pulse _ _ p => p

/-- The table of previous widths left by the iterations `trace` of a run that
started with the table `init`. -/
def tableAfter (init : List Nat) (trace : List StepResult) : List Nat :=
  match trace.getLast? with
  | some r => r.prevs
  | none => init

/-- The frame is an in-range observation of slot `s` for which a change was
reported. -/
def reportedOn (s : Nat) (f : Frame) : Bool :=
  f.mData2 == s && !f.isError && f.mType == 1

/-- The width of the most recent frame of `fs` that is an in-range observation
of slot `s` with a reported change, or zero when there is none. -/
def lastReported (s : Nat) (fs : List Frame) : Nat :=
  match (fs.filter (reportedOn s)).getLast? with
  | some f => f.mData1
  | none => 0

/-- The frame is an in-range (non-error) observation of slot `s`. -/
def observedOn (s : Nat) (f : Frame) : Bool :=
  f.mData2 == s && !f.isError

/-- The width of the most recent frame of `fs` that is an in-range observation
of slot `s`, or zero when slot `s` has not been observed. -/
def lastObserved (s : Nat) (fs : List Frame) : Nat :=
  match (fs.filter (observedOn s)).getLast? with
  | some f => f.mData1
  | none => 0

/-- The levels of the edges alternate, starting from the level `b` of the
line before the first edge. -/
def alternating : BitState → List Edge → Bool
  | _, [] => true
  | b, e :: rest => e.state != b && alternating e.state rest

/-- Every entry of the table `pv` is the `double` of the width of the most
recent in-range observation of its slot among `hist` for which a change was
reported, or zero when there is none. -/
def tableRecords (pv : List Nat) (hist : List Frame) : Prop :=
  ∀ s, 1 ≤ s → s ≤ pv.length → pv[s - 1]? = some (toDouble (lastReported s hist))

/-- The value of the slot counter left by the iterations `trace` of a run
that started with the counter `init`. -/
def counterAfter (init : Nat) (trace : List StepResult) : Nat :=
  match trace.getLast? with
  | some r => r.channel
  | none => init

/-- The function `CPPMAnalyzer::GetMinimumSampleRateHz`: the lowest sample rate
the analyzer declares it can work with. -/
def GetMinimumSampleRateHz : Nat := 1000000

/-! ## Concrete configurations and streams used in the examples -/

/-- Sync threshold 3000 µs, polarity auto, three channels, hysteresis 10 µs. -/
def cfg3 : CPPMAnalyzerSettings :=
  { mSyncTime := 3000, mSyncDir := 0, mMaxChan := 3, mMinChange := 10 }

/-- As `cfg3` with two channels only. -/
def cfg2 : CPPMAnalyzerSettings :=
  { mSyncTime := 3000, mSyncDir := 0, mMaxChan := 2, mMinChange := 10 }

/-- As `cfg3` with the polarity "accept a low level". -/
def cfgLow : CPPMAnalyzerSettings :=
  { mSyncTime := 3000, mSyncDir := 1, mMaxChan := 3, mMinChange := 10 }

/-- The body of the frame `[1000, 1500, 2000]`: each pulse is 400 samples
before its first edge and the rest after it. -/
def body3 : List (Nat × Nat × BitState × BitState) :=
  [(400, 600, BitState.BIT_HIGH, BitState.BIT_LOW),
   (400, 1100, BitState.BIT_HIGH, BitState.BIT_LOW),
   (400, 1600, BitState.BIT_HIGH, BitState.BIT_LOW)]

/-- A stream at 1 MHz: a short interval, a sync gap of 5000 µs ending at
sample 5100, then the frame `[1000, 1500, 2000]`. -/
def stream3 : List Edge :=
  [{ sample := 100, state := BitState.BIT_HIGH }, { sample := 5100, state := BitState.BIT_LOW }]
    ++ synthEdges 5100 body3

/-- Threshold 3 µs, polarity auto, 256 channels. -/
def cfg256 : CPPMAnalyzerSettings :=
  { mSyncTime := 3, mSyncDir := 0, mMaxChan := 256, mMinChange := 10 }

/-- A frame body of 256 pulses of 2 samples each. -/
def body256 : List (Nat × Nat × BitState × BitState) :=
  List.replicate 256 (1, 1, BitState.BIT_HIGH, BitState.BIT_LOW)

/-- Threshold `2 ^ 63 + 1` µs, polarity auto, one channel. -/
def cfgHuge : CPPMAnalyzerSettings :=
  { mSyncTime := 2 ^ 63 + 1, mSyncDir := 0, mMaxChan := 1, mMinChange := 10 }

/-- Edges before the sync of the polarity-rejection scenario: a short
interval, a gap of 5000 µs that ends in a high level, two short intervals. -/
def rejectedGap : List Edge :=
  [{ sample := 100, state := BitState.BIT_LOW }, { sample := 5100, state := BitState.BIT_HIGH },
   { sample := 5500, state := BitState.BIT_LOW }, { sample := 6000, state := BitState.BIT_HIGH }]

/-- The stream `stream3` followed by a second sync gap of 5000 µs (edges at
10000 and 14600) and a second frame `[1000, 1500, 2000]`. -/
def stream3twice : List Edge :=
  stream3 ++
    [{ sample := 10000, state := BitState.BIT_HIGH }, { sample := 14600, state := BitState.BIT_LOW }]
    ++ synthEdges 14600 body3

/-- As `cfg3` with no channel at all. -/
def cfg0 : CPPMAnalyzerSettings :=
  { mSyncTime := 3000, mSyncDir := 0, mMaxChan := 0, mMinChange := 10 }

/-- The polarity-rejection stream: `rejectedGap`, the confirming edge at
sample 11000 (low) and one pulse of 1000 µs after it.  Its levels alternate,
the line being high before the first edge. -/
def streamRejected : List Edge :=
  rejectedGap ++ [{ sample := 11000, state := BitState.BIT_LOW },
    { sample := 11400, state := BitState.BIT_HIGH },
    { sample := 12000, state := BitState.BIT_LOW }]

/-- Threshold 3000 µs, polarity auto, one channel, hysteresis 10 µs. -/
def cfg1 : CPPMAnalyzerSettings :=
  { mSyncTime := 3000, mSyncDir := 0, mMaxChan := 1, mMinChange := 10 }

/-- Three frames of one channel, separated by sync gaps of 5000 µs, with the
widths 1000, 1006 and 1012. -/
def hysteresisBody : List (Nat × Nat × BitState × BitState) :=
  [(400, 600, BitState.BIT_HIGH, BitState.BIT_LOW),
   (400, 4600, BitState.BIT_HIGH, BitState.BIT_LOW),
   (400, 606, BitState.BIT_HIGH, BitState.BIT_LOW),
   (400, 4600, BitState.BIT_HIGH, BitState.BIT_LOW),
   (400, 612, BitState.BIT_HIGH, BitState.BIT_LOW)]

/-- The iterations of the decoder loop on `hysteresisBody` before the third
observation: width 1000 (reported), sync gap, width 1006 (not reported), sync
gap. -/
def hysteresisBefore : List StepResult :=
  [StepResult.pulse
     (inRangeEvents 1000 1 400 1000
       { marker := some MarkerType.UpArrow, mType := 1, prevs := [1000] }) 1 [1000],
   StepResult.syncGap 0 [1000],
   StepResult.pulse
     (inRangeEvents 1006 1 6400 7006 { marker := none, mType := 0, prevs := [1000] }) 1 [1000],
   StepResult.syncGap 0 [1000]]

/-- The events of the third observation of `hysteresisBody`: width 1012,
reported as an increase. -/
def hysteresisThird : List Event :=
  inRangeEvents 1012 1 12406 13018
    { marker := some MarkerType.UpArrow, mType := 1, prevs := [1012] }

/-- A stream at 1 MHz whose first interval, 18446744073710 samples, is too
long for `samples * 1000000` to fit in 64 bits: it ends in a low level, is
followed by a short interval and by a gap of 5000 µs that ends in a low
level.  The positions increase and the levels alternate (the line is high
before the first edge). -/
def wrapStream : List Edge :=
  [{ sample := 18446744073710, state := BitState.BIT_LOW },
   { sample := 18446744073810, state := BitState.BIT_HIGH },
   { sample := 18446744078810, state := BitState.BIT_LOW }]

/-- Threshold 3 µs, polarity auto, 255 channels. -/
def cfg255 : CPPMAnalyzerSettings :=
  { mSyncTime := 3, mSyncDir := 0, mMaxChan := 255, mMinChange := 10 }

end CPPM

namespace CPPM

/-! ## Basic facts -/

theorem toDouble_of_lt {n : Nat} (h : n < 2 ^ 53) : toDouble n = n := by
  unfold toDouble
  cases n with
  | zero => rfl
  | succ k =>
    have h1 : (k + 1) / 1 < 2 ^ 53 := by simpa using h
    rw [toDoubleAux, if_pos h1]
    simp [roundNearestEven, Nat.mod_one]

theorem le_roundNearestEven (ulp n : Nat) : n / ulp * ulp ≤ roundNearestEven ulp n := by
  unfold roundNearestEven
  have h : n / ulp * ulp ≤ (n / ulp + 1) * ulp := Nat.mul_le_mul_right _ (Nat.le_succ _)
  split_ifs <;> first | exact le_rfl | exact h

theorem le_toDoubleAux (fuel : Nat) : ∀ ulp n : Nat, 2 ≤ ulp → 2 ^ 52 * ulp ≤ n →
    2 ^ 53 ≤ toDoubleAux fuel ulp n := by
  induction fuel with
  | zero =>
    intro ulp n hu hn
    simp only [toDoubleAux]
    calc 2 ^ 53 = 2 ^ 52 * 2 := by norm_num
      _ ≤ 2 ^ 52 * ulp := Nat.mul_le_mul_left _ hu
      _ ≤ n := hn
  | succ k ih =>
    intro ulp n hu hn
    simp only [toDoubleAux]
    split_ifs with hlt
    · have hq : 2 ^ 52 ≤ n / ulp := (Nat.le_div_iff_mul_le (by omega)).2 hn
      calc 2 ^ 53 = 2 ^ 52 * 2 := by norm_num
        _ ≤ 2 ^ 52 * ulp := Nat.mul_le_mul_left _ hu
        _ ≤ n / ulp * ulp := Nat.mul_le_mul_right _ hq
        _ ≤ roundNearestEven ulp n := le_roundNearestEven ulp n
    · apply ih (2 * ulp) n (by omega)
      have hge : 2 ^ 53 ≤ n / ulp := Nat.le_of_not_lt hlt
      have := (Nat.le_div_iff_mul_le (by omega : 0 < ulp)).1 hge
      calc 2 ^ 52 * (2 * ulp) = 2 ^ 53 * ulp := by ring
        _ ≤ n := this

theorem le_toDouble_of_le {n : Nat} (h : 2 ^ 53 ≤ n) : 2 ^ 53 ≤ toDouble n := by
  unfold toDouble
  cases n with
  | zero => simp at h
  | succ k =>
    have h1 : ¬ (k + 1) / 1 < 2 ^ 53 := by simpa using h
    rw [toDoubleAux, if_neg h1]
    exact le_toDoubleAux k (2 * 1) (k + 1) (by norm_num) (by omega)

theorem toDouble_le_iff {m d : Nat} (hd : d < 2 ^ 53) : toDouble m ≤ d ↔ m ≤ d := by
  by_cases hm : m < 2 ^ 53
  · rw [toDouble_of_lt hm]
  · have := le_toDouble_of_le (Nat.le_of_not_lt hm)
    constructor <;> intro h <;> omega

theorem subU64_of_le {a b : Nat} (hab : b ≤ a) (ha : a < 2 ^ 64) : subU64 a b = a - b := by
  unfold subU64
  omega

theorem subU64_add_left (a w : Nat) : subU64 (a + w) a = w % 2 ^ 64 := by
  unfold subU64
  omega

theorem decoderStep_syncGap {cfg : CPPMAnalyzerSettings} {rate start : Nat} {e1 e2 : Edge}
    {ch : Nat} {pv : List Nat} {c : Nat} {p : List Nat}
    (h : decoderStep cfg rate start e1 e2 ch pv = StepResult.syncGap c p) :
    c = 0 ∧ p = pv ∧ ∃ width, SamplesToUs rate (subU64 e2.sample start) = some width ∧
      cfg.mSyncTime ≤ width ∧ CorrectSyncDir cfg e2.state = true := by
  unfold decoderStep at h
  cases hw : SamplesToUs rate (subU64 e2.sample start) with
  | none => simp [hw] at h
  | some width =>
    simp only [hw] at h
    by_cases h1 : cfg.mSyncTime ≤ width ∧ CorrectSyncDir cfg e2.state = true
    · rw [if_pos h1] at h
      injection h with hc hp
      exact ⟨hc.symm, hp.symm, width, rfl, h1.1, h1.2⟩
    · rw [if_neg h1] at h
      by_cases h2 : cfg.mMaxChan < (ch + 1) % 256
      · rw [if_pos h2] at h
        cases h
      · rw [if_neg h2] at h
        cases hd : changeDetector cfg width ((ch + 1) % 256) pv <;> simp [hd] at h

theorem decoderStep_pulse {cfg : CPPMAnalyzerSettings} {rate start : Nat} {e1 e2 : Edge}
    {ch : Nat} {pv : List Nat} {ev : List Event} {c : Nat} {p : List Nat}
    (h : decoderStep cfg rate start e1 e2 ch pv = StepResult.pulse ev c p) :
    ∃ width, SamplesToUs rate (subU64 e2.sample start) = some width ∧
      ¬ (cfg.mSyncTime ≤ width ∧ CorrectSyncDir cfg e2.state = true) ∧
      ((cfg.mMaxChan < (ch + 1) % 256 ∧ ev = overflowEvents width e1.sample e2.sample ∧
          c = 0 ∧ p = pv) ∨
       (¬ cfg.mMaxChan < (ch + 1) % 256 ∧ ∃ d,
          changeDetector cfg width ((ch + 1) % 256) pv = some d ∧
          ev = inRangeEvents width ((ch + 1) % 256) e1.sample e2.sample d ∧
          c = (ch + 1) % 256 ∧ p = d.prevs)) := by
  unfold decoderStep at h
  cases hw : SamplesToUs rate (subU64 e2.sample start) with
  | none => simp [hw] at h
  | some width =>
    simp only [hw] at h
    by_cases h1 : cfg.mSyncTime ≤ width ∧ CorrectSyncDir cfg e2.state = true
    · rw [if_pos h1] at h
      cases h
    · rw [if_neg h1] at h
      by_cases h2 : cfg.mMaxChan < (ch + 1) % 256
      · rw [if_pos h2] at h
        injection h with hev hc hp
        exact ⟨width, rfl, h1, Or.inl ⟨h2, hev.symm, hc.symm, hp.symm⟩⟩
      · rw [if_neg h2] at h
        cases hd : changeDetector cfg width ((ch + 1) % 256) pv with
        | none => simp [hd] at h
        | some d =>
          simp only [hd] at h
          injection h with hev hc hp
          exact ⟨width, rfl, h1, Or.inr ⟨h2, d, hd, hev.symm, hc.symm, hp.symm⟩⟩

theorem changeDetector_some {cfg : CPPMAnalyzerSettings} {width s : Nat} {pv : List Nat}
    {d : Detection} (h : changeDetector cfg width s pv = some d) :
    1 ≤ s ∧ s ≤ pv.length := by
  unfold changeDetector at h
  split_ifs at h with h0
  cases hp : pv[s - 1]? with
  | none => simp [hp] at h
  | some prev =>
    have hlt := (List.getElem?_eq_some_iff.1 hp).1
    omega

theorem observations_append (xs ys : List Event) :
    observations (xs ++ ys) = observations xs ++ observations ys := by
  induction xs with
  | nil => rfl
  | cons x xs ih => cases x <;> simp [observations, ih]

theorem progressReports_append (xs ys : List Event) :
    progressReports (xs ++ ys) = progressReports xs ++ progressReports ys := by
  induction xs with
  | nil => rfl
  | cons x xs ih => cases x <;> simp [progressReports, ih]

theorem markers_append (xs ys : List Event) :
    markers (xs ++ ys) = markers xs ++ markers ys := by
  induction xs with
  | nil => rfl
  | cons x xs ih => cases x <;> simp [markers, ih]

theorem observations_overflowEvents (width high end_ : Nat) :
    observations (overflowEvents width high end_) =
      [{ mData1 := width, mData2 := 1, mFlags := 0 ||| DISPLAY_AS_ERROR_FLAG, mType := 0,
         mStartingSampleInclusive := high, mEndingSampleInclusive := end_ }] := rfl

theorem observations_inRangeEvents (width channel high end_ : Nat) (d : Detection) :
    observations (inRangeEvents width channel high end_ d) =
      [{ mData1 := width, mData2 := channel, mFlags := 0, mType := d.mType,
         mStartingSampleInclusive := high, mEndingSampleInclusive := end_ }] := by
  unfold inRangeEvents
  cases d.marker <;> rfl

/-- Induction on a list two elements at a time. -/
theorem pairs_induction {α : Type} {P : List α → Prop} (h0 : P []) (h1 : ∀ a, P [a])
    (h2 : ∀ a b l, P l → P (a :: b :: l)) : ∀ l, P l := by
  have key : ∀ l, P l ∧ ∀ a, P (a :: l) := by
    intro l
    induction l with
    | nil => exact ⟨h0, h1⟩
    | cons b l ih => exact ⟨ih.2 b, fun a => h2 a b l ih.1⟩
  exact fun l => (key l).1

theorem frameDecoder_cons_cons (cfg : CPPMAnalyzerSettings) (rate start ch : Nat)
    (pv : List Nat) (e1 e2 : Edge) (rest : List Edge) :
    frameDecoder cfg rate start ch pv (e1 :: e2 :: rest) =
      match decoderStep cfg rate start e1 e2 ch pv with
      | StepResult.undefined => [StepResult.undefined]
      | StepResult.syncGap c p =>
        StepResult.syncGap c p :: frameDecoder cfg rate e2.sample c p rest
      | StepResult.pulse ev c p =>
        StepResult.pulse ev c p :: frameDecoder cfg rate e2.sample c p rest := by
  rw [frameDecoder]

theorem mem_frameDecoder {cfg : CPPMAnalyzerSettings} {rate : Nat} {r : StepResult}
    (edges : List Edge) : ∀ (start ch : Nat) (pv : List Nat),
    r ∈ frameDecoder cfg rate start ch pv edges →
    ∃ start' e1 e2 ch' pv', r = decoderStep cfg rate start' e1 e2 ch' pv' := by
  induction edges using pairs_induction with
  | h0 => intro start ch pv h; simp [frameDecoder] at h
  | h1 a => intro start ch pv h; simp [frameDecoder] at h
  | h2 e1 e2 rest ih =>
    intro start ch pv h
    rw [frameDecoder_cons_cons] at h
    cases hd : decoderStep cfg rate start e1 e2 ch pv with
    | undefined =>
      simp only [hd, List.mem_singleton] at h
      exact ⟨start, e1, e2, ch, pv, h.trans hd.symm⟩
    | syncGap c p =>
      simp only [hd, List.mem_cons] at h
      rcases h with h | h
      · exact ⟨start, e1, e2, ch, pv, h.trans hd.symm⟩
      · exact ih _ _ _ h
    | pulse ev c p =>
      simp only [hd, List.mem_cons] at h
      rcases h with h | h
      · exact ⟨start, e1, e2, ch, pv, h.trans hd.symm⟩
      · exact ih _ _ _ h

theorem changeDetector_marker_ne_dot {cfg : CPPMAnalyzerSettings} {width s : Nat}
    {pv : List Nat} {d : Detection} (h : changeDetector cfg width s pv = some d) :
    d.marker ≠ some MarkerType.Dot := by
  unfold changeDetector at h
  split_ifs at h with h0
  cases hp : pv[s - 1]? with
  | none => simp [hp] at h
  | some prev =>
    simp only [hp] at h
    split_ifs at h <;> (injection h with h; subst h; simp)

/-- Shape of the events of an iteration that emits: at most one marker, then
the frame, `CommitResults` and the progress report at the end of the frame. -/
theorem decoderStep_pulse_shape {cfg : CPPMAnalyzerSettings} {rate start : Nat} {e1 e2 : Edge}
    {ch : Nat} {pv : List Nat} {ev : List Event} {c : Nat} {p : List Nat}
    (h : decoderStep cfg rate start e1 e2 ch pv = StepResult.pulse ev c p) :
    ∃ mk f, ev = mk ++ [Event.AddFrame f, Event.CommitResults,
        Event.ReportProgress f.mEndingSampleInclusive] ∧
      mk.length ≤ 1 ∧ (∀ x ∈ mk, ∃ s m, x = Event.AddMarker s m ∧ m ≠ MarkerType.Dot) ∧
      f.mStartingSampleInclusive = e1.sample ∧ f.mEndingSampleInclusive = e2.sample := by
  obtain ⟨width, _, _, hcase⟩ := decoderStep_pulse h
  rcases hcase with ⟨_, hev, _, _⟩ | ⟨_, d, hd, hev, _, _⟩
  · refine ⟨[Event.AddMarker (midSample e1.sample e2.sample) MarkerType.ErrorX],
      { mData1 := width, mData2 := 1, mFlags := 0 ||| DISPLAY_AS_ERROR_FLAG, mType := 0,
        mStartingSampleInclusive := e1.sample, mEndingSampleInclusive := e2.sample },
      ?_, ?_, ?_, rfl, rfl⟩
    · rw [hev]; rfl
    · simp
    · intro x hx
      simp only [List.mem_singleton] at hx
      exact ⟨_, _, hx, by decide⟩
  · have hne := changeDetector_marker_ne_dot hd
    cases hm : d.marker with
    | none =>
      refine ⟨[],
        { mData1 := width, mData2 := (ch + 1) % 256, mFlags := 0, mType := d.mType,
          mStartingSampleInclusive := e1.sample, mEndingSampleInclusive := e2.sample },
        ?_, ?_, ?_, rfl, rfl⟩
      · rw [hev]; simp [inRangeEvents, hm]
      · simp
      · simp
    | some m =>
      refine ⟨[Event.AddMarker (midSample e1.sample e2.sample) m],
        { mData1 := width, mData2 := (ch + 1) % 256, mFlags := 0, mType := d.mType,
          mStartingSampleInclusive := e1.sample, mEndingSampleInclusive := e2.sample },
        ?_, ?_, ?_, rfl, rfl⟩
      · rw [hev]; simp [inRangeEvents, hm]
      · simp
      · intro x hx
        simp only [List.mem_singleton] at hx
        refine ⟨_, _, hx, ?_⟩
        intro hdot
        exact hne (by rw [hm, hdot])

/-- C3, as stated, fails: with the polarity "accept a low level" and the
threshold 3000 µs at 1 MHz, on the alternating stream with edges at 100
(high), 5100 (low), 5500 (high), 10100 (low) the acquirer locks at 5100 on a
low level; the first decoder step then has `start = 5100`, `high = 5500` and
`end = 10100`, its width is 5000 µs and the level sampled at `high` is high,
which does not satisfy the polarity, yet the step is treated as a sync gap:
the level tested is the one at `end`, which is low. -/
theorem boundary_test_level_at_high_refuted :
    alternating BitState.BIT_LOW
        [{ sample := 100, state := BitState.BIT_HIGH },
         { sample := 5100, state := BitState.BIT_LOW },
         { sample := 5500, state := BitState.BIT_HIGH },
         { sample := 10100, state := BitState.BIT_LOW }] = true ∧
    syncAcquire cfgLow 1000000 0
        [{ sample := 100, state := BitState.BIT_HIGH },
         { sample := 5100, state := BitState.BIT_LOW },
         { sample := 5500, state := BitState.BIT_HIGH },
         { sample := 10100, state := BitState.BIT_LOW }] =
      AcquireResult.locked 5100 BitState.BIT_LOW
        [{ sample := 5500, state := BitState.BIT_HIGH },
         { sample := 10100, state := BitState.BIT_LOW }] ∧
    SamplesToUs 1000000 (subU64 10100 5100) = some 5000 ∧ cfgLow.mSyncTime ≤ 5000 ∧
    CorrectSyncDir cfgLow BitState.BIT_HIGH = false ∧
    decoderStep cfgLow 1000000 5100 { sample := 5500, state := BitState.BIT_HIGH }
        { sample := 10100, state := BitState.BIT_LOW } 0 [0, 0, 0] =
      StepResult.syncGap 0 [0, 0, 0] := by
  decide

/-- C3, amended: a decoder step is treated as a new sync gap (slot counter
reset to 0, table untouched, nothing emitted) exactly when
`SamplesToUs(end - start)` is defined and at least `mSyncTime` and the bit
level after the second edge of the step (the level at `end`) satisfies the
polarity test. -/
theorem boundary_test_level_at_end (cfg : CPPMAnalyzerSettings) (rate start : Nat)
    (e1 e2 : Edge) (channel : Nat) (prevs : List Nat) :
    decoderStep cfg rate start e1 e2 channel prevs = StepResult.syncGap 0 prevs ↔
      ∃ width, SamplesToUs rate (subU64 e2.sample start) = some width ∧
        cfg.mSyncTime ≤ width ∧ CorrectSyncDir cfg e2.state = true := by
  constructor
  · intro h
    exact (decoderStep_syncGap h).2.2
  · rintro ⟨width, hw, hT, hdir⟩
    unfold decoderStep
    simp only [hw]
    rw [if_pos ⟨hT, hdir⟩]

/-! ## C8 and the policy of the change detector -/

/-- The stored width `q` is settled for the width `width`: the condition of
the change-detecting branch is false on it. -/
theorem changeDetector_of_settled {cfg : CPPMAnalyzerSettings} {width s q : Nat}
    {pv : List Nat} (hs : 1 ≤ s) (hq : pv[s - 1]? = some q)
    (hset : ¬ (toDouble cfg.mMinChange ≤ toDouble (absDiff (toDouble width) q)
      ∧ q ≠ toDouble width)) :
    changeDetector cfg width s pv = some { marker := none, mType := 0, prevs := pv } := by
  unfold changeDetector
  rw [if_neg (by omega)]
  simp only [hq]
  rw [if_neg hset]

theorem changeDetector_settles {cfg : CPPMAnalyzerSettings} {width s : Nat}
    {pv : List Nat} {d : Detection} (h : changeDetector cfg width s pv = some d) :
    ∃ q, d.prevs[s - 1]? = some q ∧
      ¬ (toDouble cfg.mMinChange ≤ toDouble (absDiff (toDouble width) q)
        ∧ q ≠ toDouble width) := by
  have hrange := changeDetector_some h
  unfold changeDetector at h
  rw [if_neg (by omega)] at h
  cases hp : pv[s - 1]? with
  | none => simp [hp] at h
  | some prev =>
    simp only [hp] at h
    by_cases hc : toDouble cfg.mMinChange ≤ toDouble (absDiff (toDouble width) prev)
        ∧ prev ≠ toDouble width
    · rw [if_pos hc] at h
      injection h with h
      subst h
      refine ⟨toDouble width, ?_, fun hh => hh.2 rfl⟩
      exact List.getElem?_set_self (by omega)
    · rw [if_neg hc] at h
      injection h with h
      subst h
      exact ⟨prev, hp, hc⟩

theorem changeDetector_other_slot {cfg : CPPMAnalyzerSettings} {width s s' : Nat}
    {pv : List Nat} {d : Detection} (h : changeDetector cfg width s' pv = some d)
    (hs : 1 ≤ s) (hne : s' ≠ s) : d.prevs[s - 1]? = pv[s - 1]? := by
  have hrange := changeDetector_some h
  unfold changeDetector at h
  rw [if_neg (by omega)] at h
  cases hp : pv[s' - 1]? with
  | none => simp [hp] at h
  | some prev =>
    simp only [hp] at h
    by_cases hc : toDouble cfg.mMinChange ≤ toDouble (absDiff (toDouble width) prev)
        ∧ prev ≠ toDouble width
    · rw [if_pos hc] at h
      injection h with h
      subst h
      exact List.getElem?_set_ne (by omega)
    · rw [if_neg hc] at h
      injection h with h
      subst h
      rfl

theorem detectAll_other_slots {cfg : CPPMAnalyzerSettings} {s : Nat} (hs : 1 ≤ s)
    (others : List (Nat × Nat)) : ∀ (pv t : List Nat), (∀ x ∈ others, x.1 ≠ s) →
    detectAll cfg others pv = some t → t[s - 1]? = pv[s - 1]? := by
  induction others with
  | nil =>
    intro pv t _ h
    simp only [detectAll] at h
    injection h with h
    rw [h]
  | cons x rest ih =>
    intro pv t hx h
    obtain ⟨s', w'⟩ := x
    simp only [detectAll] at h
    cases hd : changeDetector cfg w' s' pv with
    | none => simp [hd] at h
    | some d =>
      simp only [hd] at h
      have h1 := ih d.prevs t (fun y hy => hx y (List.mem_cons_of_mem _ hy)) h
      have h2 := changeDetector_other_slot hd hs (hx (s', w') (List.mem_cons_self _ _))
      rw [h1, h2]

/-- The policy of the change detector on widths that a `double` holds exactly:
for a slot `s` in range, a new width `w` and a stored width `p = prevs[s-1]`,
both below `2 ^ 53`, a change is reported iff `|w - p| ≥ mMinChange` and
`w ≠ p`; the marker is then the up arrow if `w > p` and the down arrow
otherwise and `prevs[s-1]` becomes `w`; otherwise the table is unmodified. -/
theorem changeDetector_policy_exact (cfg : CPPMAnalyzerSettings) (w s p : Nat) (prevs : List Nat)
    (hs : 1 ≤ s) (hp : prevs[s - 1]? = some p) (hw : w < 2 ^ 53) (hpb : p < 2 ^ 53) :
    changeDetector cfg w s prevs =
      if cfg.mMinChange ≤ absDiff w p ∧ w ≠ p then
        some { marker := some (if p < w then MarkerType.UpArrow else MarkerType.DownArrow),
               mType := 1, prevs := prevs.set (s - 1) w }
      else some { marker := none, mType := 0, prevs := prevs } := by
  have hd : absDiff w p < 2 ^ 53 := by
    unfold absDiff
    split_ifs <;> omega
  unfold changeDetector
  rw [if_neg (by omega)]
  simp only [hp, toDouble_of_lt hw, toDouble_of_lt hd]
  by_cases hc : cfg.mMinChange ≤ absDiff w p ∧ w ≠ p
  · rw [if_pos hc, if_pos ⟨(toDouble_le_iff hd).2 hc.1, fun h => hc.2 h.symm⟩]
  · rw [if_neg hc, if_neg]
    rintro ⟨h1, h2⟩
    exact hc ⟨(toDouble_le_iff hd).1 h1, fun h => h2 h.symm⟩

/-- C8: for every table, every slot `s` in range, every width `w` and every
`mMinChange`, running the change detector on `(s, w)` succeeds, and running it
again on `(s, w)` against the resulting table reports nothing (no marker,
frame type 0) and leaves the table unchanged.  The same holds when, between
the two, the detector has run on any observations of other slots (the rest of
the frame and the beginning of the next one): a channel whose width is the
same in two consecutive frames is classified none in the second, whatever the
first classification was. -/
theorem hysteresis_idempotent (cfg : CPPMAnalyzerSettings) (w s : Nat) (prevs : List Nat)
    (others : List (Nat × Nat)) (hs : 1 ≤ s) (hlen : s ≤ prevs.length)
    (hothers : ∀ x ∈ others, x.1 ≠ s) :
    ∃ d1, changeDetector cfg w s prevs = some d1 ∧
      changeDetector cfg w s d1.prevs = some { marker := none, mType := 0, prevs := d1.prevs } ∧
      ∀ t, detectAll cfg others d1.prevs = some t →
        changeDetector cfg w s t = some { marker := none, mType := 0, prevs := t } := by
  cases hd : changeDetector cfg w s prevs with
  | none =>
    exfalso
    unfold changeDetector at hd
    rw [if_neg (by omega)] at hd
    have hsome : prevs[s - 1]? = some (prevs[s - 1]) :=
      List.getElem?_eq_getElem (by omega)
    simp only [hsome] at hd
    split_ifs at hd
  | some d1 =>
    obtain ⟨q, hq, hset⟩ := changeDetector_settles hd
    refine ⟨d1, rfl, changeDetector_of_settled hs hq hset, ?_⟩
    intro t ht
    have := detectAll_other_slots hs others d1.prevs t hothers ht
    exact changeDetector_of_settled hs (this.trans hq) hset

/-- C8, witness: slot 1 of a three-channel table, first seen at 1500 (reported
as an increase), then slots 2 and 3 are observed, then slot 1 is seen at 1500
again: nothing is reported and the table is unchanged. -/
theorem hysteresis_idempotent_witness :
    changeDetector cfg3 1500 1 [0, 0, 0] =
      some { marker := some MarkerType.UpArrow, mType := 1, prevs := [1500, 0, 0] } ∧
    detectAll cfg3 [(2, 1200), (3, 1800)] [1500, 0, 0] = some [1500, 1200, 1800] ∧
    changeDetector cfg3 1500 1 [1500, 1200, 1800] =
      some { marker := none, mType := 0, prevs := [1500, 1200, 1800] } := by
  obtain ⟨d1, h1, _, h3⟩ := hysteresis_idempotent cfg3 1500 1 [0, 0, 0] [(2, 1200), (3, 1800)]
    (by decide) (by decide) (by decide)
  have e1 : changeDetector cfg3 1500 1 [0, 0, 0] =
      some { marker := some MarkerType.UpArrow, mType := 1, prevs := [1500, 0, 0] } := by
    decide
  have hd1 : d1 = { marker := some MarkerType.UpArrow, mType := 1, prevs := [1500, 0, 0] } :=
    Option.some.inj (h1.symm.trans e1)
  subst hd1
  exact ⟨e1, by decide, h3 [1500, 1200, 1800] (by decide)⟩

/-! ## The observation of an iteration -/

/-- The frame of an iteration that emits, in the two branches of the loop
body. -/
theorem decoderStep_pulse_observation {cfg : CPPMAnalyzerSettings} {rate start : Nat}
    {e1 e2 : Edge} {ch : Nat} {pv : List Nat} {ev : List Event} {c : Nat} {p : List Nat}
    (h : decoderStep cfg rate start e1 e2 ch pv = StepResult.pulse ev c p) :
    ∃ width f, SamplesToUs rate (subU64 e2.sample start) = some width ∧
      observations ev = [f] ∧ f.mData1 = width ∧
      f.mStartingSampleInclusive = e1.sample ∧ f.mEndingSampleInclusive = e2.sample ∧
      ((cfg.mMaxChan < (ch + 1) % 256 ∧ f.isError = true ∧ f.mData2 = 1 ∧ f.mType = 0 ∧
          c = 0 ∧ p = pv ∧
          markers ev = [(midSample e1.sample e2.sample, MarkerType.ErrorX)]) ∨
       (¬ cfg.mMaxChan < (ch + 1) % 256 ∧ f.isError = false ∧ f.mData2 = (ch + 1) % 256 ∧
          c = (ch + 1) % 256 ∧ 1 ≤ (ch + 1) % 256 ∧ (ch + 1) % 256 ≤ pv.length ∧
          p.length = pv.length)) := by
  obtain ⟨width, hw, _, hcase⟩ := decoderStep_pulse h
  rcases hcase with ⟨hov, hev, hc, hp⟩ | ⟨hin, d, hd, hev, hc, hp⟩
  · refine ⟨width, _, hw, by rw [hev]; exact observations_overflowEvents _ _ _, rfl, rfl, rfl,
      Or.inl ⟨hov, by simp [Frame.isError, DISPLAY_AS_ERROR_FLAG], rfl, rfl, hc, hp,
        by rw [hev]; rfl⟩⟩
  · have hrange := changeDetector_some hd
    have hlen : d.prevs.length = pv.length := by
      unfold changeDetector at hd
      rw [if_neg (by omega)] at hd
      cases hq : pv[(ch + 1) % 256 - 1]? with
      | none => simp [hq] at hd
      | some prev =>
        simp only [hq] at hd
        by_cases hcnd : toDouble cfg.mMinChange ≤ toDouble (absDiff (toDouble width) prev)
            ∧ prev ≠ toDouble width
        · rw [if_pos hcnd] at hd
          injection hd with hd
          subst hd
          simp
        · rw [if_neg hcnd] at hd
          injection hd with hd
          subst hd
          rfl
    refine ⟨width, _, hw, by rw [hev]; exact observations_inRangeEvents _ _ _ _ _, rfl, rfl, rfl,
      Or.inr ⟨hin, by simp [Frame.isError, DISPLAY_AS_ERROR_FLAG], rfl, hc, hrange.1, hrange.2,
        by rw [hp]; exact hlen⟩⟩

theorem traceEvents_cons (r : StepResult) (t : List StepResult) :
    traceEvents (r :: t) = r.events ++ traceEvents t := by
  simp [traceEvents]

/-! ## C5: the first observation after lock -/

theorem frameDecoder_first_observation (cfg : CPPMAnalyzerSettings) (rate : Nat)
    (edges : List Edge) : ∀ (start : Nat) (pv : List Nat) (f : Frame),
    (observations (traceEvents (frameDecoder cfg rate start 0 pv edges))).head? = some f →
    f.mData2 = 1 := by
  induction edges using pairs_induction with
  | h0 => intro start pv f h; simp [frameDecoder, traceEvents, observations] at h
  | h1 a => intro start pv f h; simp [frameDecoder, traceEvents, observations] at h
  | h2 e1 e2 rest ih =>
    intro start pv f h
    rw [frameDecoder_cons_cons] at h
    cases hd : decoderStep cfg rate start e1 e2 0 pv with
    | undefined => simp [hd, traceEvents, StepResult.events, observations] at h
    | syncGap c p =>
      simp only [hd, traceEvents_cons, StepResult.events, List.nil_append] at h
      obtain ⟨hc, _, _⟩ := decoderStep_syncGap hd
      subst hc
      exact ih _ _ _ h
    | pulse ev c p =>
      simp only [hd, traceEvents_cons, StepResult.events, observations_append] at h
      obtain ⟨_, g, _, hobs, _, _, _, hcase⟩ := decoderStep_pulse_observation hd
      rw [hobs] at h
      simp only [List.singleton_append, List.head?_cons] at h
      injection h with h
      subst h
      rcases hcase with ⟨_, _, hg, _⟩ | ⟨_, _, hg, _⟩
      · exact hg
      · rw [hg]

/-- C5: for every configuration (in particular every valid one, with
`mMaxChan ≥ 1` and a positive sample rate), every start position and every
edge stream, the first frame emitted by the worker thread (the first
observation after the sync acquirer has returned) has channel slot 1. -/
theorem first_observation_slot_one (cfg : CPPMAnalyzerSettings) (rate sample : Nat)
    (edges : List Edge) (f : Frame)
    (h : (observations (WorkerThread cfg rate sample edges)).head? = some f) :
    f.mData2 = 1 := by
  unfold WorkerThread at h
  cases ha : syncAcquire cfg rate sample edges with
  | blocked => simp [ha, observations] at h
  | undefined => simp [ha, observations] at h
  | locked pos st rest =>
    simp only [ha, observations] at h
    exact frameDecoder_first_observation cfg rate rest pos _ f h

/-- C5, witness: on the stream sync + `[1000, 1500, 2000]` at 1 MHz with three
channels, the first observation is the pulse of 1000 µs, with slot 1. -/
theorem first_observation_slot_one_witness :
    (observations (WorkerThread cfg3 1000000 0 stream3)).head? =
      some { mData1 := 1000, mData2 := 1, mFlags := 0, mType := 1,
             mStartingSampleInclusive := 5500, mEndingSampleInclusive := 6100 } ∧
    Frame.mData2 { mData1 := 1000, mData2 := 1, mFlags := 0, mType := 1,
                   mStartingSampleInclusive := 5500, mEndingSampleInclusive := 6100 } = 1 :=
  ⟨by decide,
   first_observation_slot_one cfg3 1000000 0 stream3
     { mData1 := 1000, mData2 := 1, mFlags := 0, mType := 1,
       mStartingSampleInclusive := 5500, mEndingSampleInclusive := 6100 } (by decide)⟩

/-! ## Facts on the sync acquirer and the lock marker -/

theorem SamplesToUs_pos {rate : Nat} (h : 0 < rate) (d : Nat) :
    SamplesToUs rate d = some (d * 1000000 % 2 ^ 64 / rate) := by
  unfold SamplesToUs
  rw [if_neg (by omega)]

theorem positionAfter_cons (cur : Nat) (x : Edge) (xs : List Edge) :
    positionAfter cur (x :: xs) = positionAfter x.sample xs := by
  unfold positionAfter
  cases xs with
  | nil => rfl
  | cons y ys =>
    rw [List.getLast?_cons_cons]
    cases h : (y :: ys).getLast? with
    | none => simp at h
    | some z => rfl

theorem lockMarkers_append (xs ys : List Event) :
    lockMarkers (xs ++ ys) = lockMarkers xs ++ lockMarkers ys := by
  induction xs with
  | nil => rfl
  | cons x xs ih =>
    cases x with
    | AddMarker s m => cases m <;> simp [lockMarkers, ih]
    | AddFrame f => simp [lockMarkers, ih]
    | CommitResults => simp [lockMarkers, ih]
    | ReportProgress s => simp [lockMarkers, ih]

theorem lockMarkers_frameDecoder (cfg : CPPMAnalyzerSettings) (rate : Nat)
    (edges : List Edge) : ∀ (start ch : Nat) (pv : List Nat),
    lockMarkers (traceEvents (frameDecoder cfg rate start ch pv edges)) = [] := by
  induction edges using pairs_induction with
  | h0 => intro start ch pv; rfl
  | h1 a => intro start ch pv; rfl
  | h2 e1 e2 rest ih =>
    intro start ch pv
    rw [frameDecoder_cons_cons]
    cases hd : decoderStep cfg rate start e1 e2 ch pv with
    | undefined => rfl
    | syncGap c p =>
      simp only [traceEvents_cons, StepResult.events, List.nil_append]
      exact ih _ _ _
    | pulse ev c p =>
      obtain ⟨mk, f, hev, hlen, hmk, _, _⟩ := decoderStep_pulse_shape hd
      simp only [traceEvents_cons, StepResult.events, lockMarkers_append, ih, List.append_nil]
      rw [hev, lockMarkers_append]
      have h1 : lockMarkers mk = [] := by
        match mk, hlen, hmk with
        | [], _, _ => rfl
        | [x], _, hx =>
          obtain ⟨s, m, hxe, hm⟩ := hx x (List.mem_singleton.2 rfl)
          subst hxe
          cases m <;> first | exact absurd rfl hm | rfl
        | _ :: _ :: _, hl, _ => simp at hl
      rw [h1]
      rfl

/-! ## C10: ordering of the output -/

theorem frameSamples_cons (f : Frame) (fs : List Frame) :
    frameSamples (f :: fs) =
      f.mStartingSampleInclusive :: f.mEndingSampleInclusive :: frameSamples fs := by
  simp [frameSamples]

theorem frameDecoder_samples_sublist (cfg : CPPMAnalyzerSettings) (rate : Nat)
    (edges : List Edge) : ∀ (start ch : Nat) (pv : List Nat),
    (frameSamples (observations (traceEvents (frameDecoder cfg rate start ch pv edges)))).Sublist
      (edges.map Edge.sample) ∧
    (progressReports (traceEvents (frameDecoder cfg rate start ch pv edges))).Sublist
      (edges.map Edge.sample) := by
  induction edges using pairs_induction with
  | h0 => intro start ch pv; exact ⟨List.nil_sublist _, List.nil_sublist _⟩
  | h1 a => intro start ch pv; exact ⟨List.nil_sublist _, List.nil_sublist _⟩
  | h2 e1 e2 rest ih =>
    intro start ch pv
    rw [frameDecoder_cons_cons]
    cases hd : decoderStep cfg rate start e1 e2 ch pv with
    | undefined => exact ⟨List.nil_sublist _, List.nil_sublist _⟩
    | syncGap c p =>
      simp only [traceEvents_cons, StepResult.events, List.nil_append, List.map_cons]
      exact ⟨List.Sublist.cons _ (List.Sublist.cons _ (ih _ _ _).1),
        List.Sublist.cons _ (List.Sublist.cons _ (ih _ _ _).2)⟩
    | pulse ev c p =>
      obtain ⟨_, f, _, hobs, _, hs, he, _⟩ := decoderStep_pulse_observation hd
      obtain ⟨mk, g, hev, hlen, hmk, _, hge⟩ := decoderStep_pulse_shape hd
      have hprog : progressReports ev = [e2.sample] := by
        have hmk1 : progressReports mk = [] := by
          match mk, hlen, hmk with
          | [], _, _ => rfl
          | [x], _, hx =>
            obtain ⟨s, m, hxe, _⟩ := hx x (List.mem_singleton.2 rfl)
            subst hxe
            rfl
          | _ :: _ :: _, hl, _ => simp at hl
        rw [hev, progressReports_append, hmk1, hge]
        rfl
      simp only [traceEvents_cons, StepResult.events, observations_append,
        progressReports_append, hobs, hprog, List.singleton_append, frameSamples_cons, hs, he,
        List.map_cons]
      exact ⟨List.Sublist.cons₂ _ (List.Sublist.cons₂ _ (ih _ _ _).1),
        List.Sublist.cons _ (List.Sublist.cons₂ _ (ih _ _ _).2)⟩

theorem syncAcquire_locked_sublist (cfg : CPPMAnalyzerSettings) (rate : Nat)
    (edges : List Edge) : ∀ (cur pos : Nat) (st : BitState) (rest : List Edge),
    syncAcquire cfg rate cur edges = AcquireResult.locked pos st rest →
    rest.Sublist edges := by
  induction edges with
  | nil => intro cur pos st rest h; simp [syncAcquire] at h
  | cons e es ih =>
    intro cur pos st rest h
    simp only [syncAcquire] at h
    cases hw : SamplesToUs rate (subU64 e.sample cur) with
    | none => simp [hw] at h
    | some us =>
      simp only [hw] at h
      by_cases h1 : us < cfg.mSyncTime
      · rw [if_pos h1] at h
        exact List.Sublist.cons _ (ih _ _ _ _ h)
      · rw [if_neg h1] at h
        by_cases h2 : CorrectSyncDir cfg e.state = true
        · rw [if_pos h2] at h
          injection h with _ _ hrest
          subst hrest
          exact List.Sublist.cons _ (List.Sublist.refl _)
        · rw [if_neg h2] at h
          exact List.Sublist.cons _ (ih _ _ _ _ h)

/-- C10: for every edge stream whose edge positions are strictly increasing,
the start and end samples of the frames emitted by the worker thread, listed
in emission order (start of the first, end of the first, start of the
second, ...), are strictly increasing: the start of each observation is
strictly less than its end and the end of each observation is strictly less
than the start of the next; the reported progress positions are strictly
increasing too. -/
theorem observations_strictly_increasing (cfg : CPPMAnalyzerSettings) (rate sample : Nat)
    (edges : List Edge) (hinc : (edges.map Edge.sample).Pairwise (· < ·)) :
    (frameSamples (observations (WorkerThread cfg rate sample edges))).Pairwise (· < ·) ∧
    (progressReports (WorkerThread cfg rate sample edges)).Pairwise (· < ·) := by
  unfold WorkerThread
  cases ha : syncAcquire cfg rate sample edges with
  | blocked => exact ⟨List.Pairwise.nil, List.Pairwise.nil⟩
  | undefined => exact ⟨List.Pairwise.nil, List.Pairwise.nil⟩
  | locked pos st rest =>
    have hsub := (syncAcquire_locked_sublist cfg rate edges sample pos st rest ha).map Edge.sample
    have hdec := frameDecoder_samples_sublist cfg rate rest pos 0 (List.replicate cfg.mMaxChan 0)
    simp only [observations, progressReports]
    exact ⟨hinc.sublist (hdec.1.trans hsub), hinc.sublist (hdec.2.trans hsub)⟩

/-- C10, witness: on the stream sync + `[1000, 1500, 2000]` the frames span
5500..6100, 6500..7600 and 8000..9600 and progress is reported at 6100, 7600
and 9600. -/
theorem observations_strictly_increasing_witness :
    (frameSamples (observations (WorkerThread cfg3 1000000 0 stream3)) =
        [5500, 6100, 6500, 7600, 8000, 9600] ∧
      progressReports (WorkerThread cfg3 1000000 0 stream3) = [6100, 7600, 9600]) ∧
    (frameSamples (observations (WorkerThread cfg3 1000000 0 stream3))).Pairwise (· < ·) ∧
    (progressReports (WorkerThread cfg3 1000000 0 stream3)).Pairwise (· < ·) :=
  ⟨by decide, observations_strictly_increasing cfg3 1000000 0 stream3 (by decide)⟩

/-! ## Consecutive iterations of a run -/

theorem frameDecoder_head (cfg : CPPMAnalyzerSettings) (rate : Nat) (edges : List Edge)
    (start ch : Nat) (pv : List Nat) :
    ∀ y ∈ (frameDecoder cfg rate start ch pv edges).head?,
      ∃ e1 e2, y = decoderStep cfg rate start e1 e2 ch pv := by
  intro y hy
  match edges with
  | [] => simp [frameDecoder] at hy
  | [_] => simp [frameDecoder] at hy
  | e1 :: e2 :: rest =>
    rw [frameDecoder_cons_cons] at hy
    refine ⟨e1, e2, ?_⟩
    cases hd : decoderStep cfg rate start e1 e2 ch pv <;>
      simp only [hd, List.head?_cons, Option.mem_def, Option.some.injEq] at hy <;>
      exact hy.symm

/-- Each iteration of a run starts from the slot counter left by the
iteration before it. -/
theorem frameDecoder_chain (cfg : CPPMAnalyzerSettings) (rate : Nat) (edges : List Edge) :
    ∀ (start ch : Nat) (pv : List Nat),
    List.Chain' (fun x y => ∃ s e1 e2 q, y = decoderStep cfg rate s e1 e2 x.channel q)
      (frameDecoder cfg rate start ch pv edges) := by
  induction edges using pairs_induction with
  | h0 => intro start ch pv; simp [frameDecoder]
  | h1 a => intro start ch pv; simp [frameDecoder]
  | h2 e1 e2 rest ih =>
    intro start ch pv
    rw [frameDecoder_cons_cons]
    cases hd : decoderStep cfg rate start e1 e2 ch pv with
    | undefined => exact List.chain'_singleton _
    | syncGap c p =>
      refine List.Chain'.cons' (ih _ _ _) ?_
      intro y hy
      obtain ⟨a, b, hab⟩ := frameDecoder_head cfg rate rest e2.sample c p y hy
      exact ⟨e2.sample, a, b, p, hab⟩
    | pulse ev c p =>
      refine List.Chain'.cons' (ih _ _ _) ?_
      intro y hy
      obtain ⟨a, b, hab⟩ := frameDecoder_head cfg rate rest e2.sample c p y hy
      exact ⟨e2.sample, a, b, p, hab⟩

theorem step_after_gaps (cfg : CPPMAnalyzerSettings) (rate : Nat) (b : StepResult)
    (post : List StepResult) (gaps : List StepResult) : ∀ (x : StepResult),
    List.Chain' (fun x y => ∃ s e1 e2 q, y = decoderStep cfg rate s e1 e2 x.channel q)
      (x :: (gaps ++ b :: post)) →
    (∀ g ∈ gaps, ∃ c p, g = StepResult.syncGap c p) →
    ∃ s e1 e2 q, b = decoderStep cfg rate s e1 e2 (if gaps = [] then x.channel else 0) q := by
  induction gaps with
  | nil =>
    intro x hch _
    simp only [List.nil_append] at hch
    simpa using (List.chain'_cons.1 hch).1
  | cons g gs ih =>
    intro x hch hg
    simp only [List.cons_append] at hch
    obtain ⟨hxg, hrest⟩ := List.chain'_cons.1 hch
    obtain ⟨c, p, hgc⟩ := hg g (List.mem_cons_self _ _)
    obtain ⟨s, e1, e2, q, hstep⟩ := hxg
    rw [hgc] at hstep
    have hc0 : c = 0 := (decoderStep_syncGap hstep.symm).1
    obtain ⟨s', e1', e2', q', hb⟩ := ih g hrest (fun y hy => hg y (List.mem_cons_of_mem _ hy))
    refine ⟨s', e1', e2', q', ?_⟩
    rw [hb, hgc, hc0]
    simp [StepResult.channel]

/-- Slots of two observations `fa` then `fb` emitted by a run with only sync
gaps between them: the slot of `fb` follows from the slot counter left by
`fa` and the sync gaps. -/
theorem slots_of_consecutive_pulses (cfg : CPPMAnalyzerSettings) (rate start channel : Nat)
    (prevs : List Nat) (edges : List Edge) (pre gaps post : List StepResult)
    (eva evb : List Event) (ca cb : Nat) (pa pb : List Nat) (fa fb : Frame)
    (htrace : frameDecoder cfg rate start channel prevs edges =
      pre ++ StepResult.pulse eva ca pa :: (gaps ++ StepResult.pulse evb cb pb :: post))
    (hgaps : ∀ g ∈ gaps, ∃ c p, g = StepResult.syncGap c p)
    (hfa : observations eva = [fa]) (hfb : observations evb = [fb]) :
    (gaps = [] → fa.isError = false →
      (fa.mData2 ≠ cfg.mMaxChan → fb.mData2 = fa.mData2 + 1) ∧
      (fa.mData2 = cfg.mMaxChan → fb.isError = true ∧ fb.mData2 = 1)) ∧
    (gaps ≠ [] ∨ fa.isError = true → fb.mData2 = 1) := by
  have hchain := frameDecoder_chain cfg rate edges start channel prevs
  rw [htrace] at hchain
  have hamem : StepResult.pulse eva ca pa ∈ frameDecoder cfg rate start channel prevs edges := by
    rw [htrace]
    simp
  obtain ⟨sa, a1, a2, cha, pva, hastep⟩ := mem_frameDecoder edges start channel prevs hamem
  obtain ⟨_, fa', _, hobsa, _, _, _, hcasea⟩ := decoderStep_pulse_observation hastep.symm
  have hfa' : fa' = fa := by
    rw [hobsa] at hfa
    simpa using hfa
  subst hfa'
  obtain ⟨sb, b1, b2, q, hbstep⟩ :=
    step_after_gaps cfg rate _ post gaps _ hchain.right_of_append hgaps
  obtain ⟨_, fb', _, hobsb, _, _, _, hcaseb⟩ := decoderStep_pulse_observation hbstep.symm
  have hfb' : fb' = fb := by
    rw [hobsb] at hfb
    simpa using hfb
  subst hfb'
  simp only [StepResult.channel] at hcaseb
  constructor
  · intro hg hne
    rw [if_pos hg] at hcaseb
    rcases hcasea with ⟨_, herr, _⟩ | ⟨hin, _, hslot, hca, h1, _, _⟩
    · rw [herr] at hne
      cases hne
    · have hlt : fa'.mData2 < 256 := by
        rw [hslot]
        exact Nat.mod_lt _ (by norm_num)
      rw [← hslot] at hin h1 hca
      rw [hca] at hcaseb
      rcases hcaseb with ⟨hov, herrb, hslotb, _⟩ | ⟨hinb, _, hslotb, _, h1b, _, _⟩
      · refine ⟨fun hneq => ?_, fun _ => ⟨herrb, hslotb⟩⟩
        exfalso
        have := Nat.mod_le (fa'.mData2 + 1) 256
        omega
      · refine ⟨fun _ => ?_, fun heq => ?_⟩
        · rw [hslotb]
          omega
        · exfalso
          omega
  · intro hor
    have hch : (if gaps = [] then ca else 0) = 0 := by
      by_cases hg : gaps = []
      · rw [if_pos hg]
        rcases hor with hne | herr
        · exact absurd hg hne
        · rcases hcasea with ⟨_, _, _, _, hca, _⟩ | ⟨_, hnoerr, _⟩
          · exact hca
          · rw [hnoerr] at herr
            cases herr
      · rw [if_neg hg]
    rw [hch] at hcaseb
    rcases hcaseb with ⟨_, _, hslotb, _⟩ | ⟨_, _, hslotb, _⟩
    · exact hslotb
    · rw [hslotb]

/-! ## C1: round trip on a synthetic frame -/

theorem changeDetector_defined (cfg : CPPMAnalyzerSettings) (width : Nat) {s : Nat}
    {pv : List Nat} (hs : 1 ≤ s) (hlen : s ≤ pv.length) :
    ∃ d, changeDetector cfg width s pv = some d ∧ d.prevs.length = pv.length := by
  have hsome : pv[s - 1]? = some (pv[s - 1]) := List.getElem?_eq_getElem (by omega)
  unfold changeDetector
  rw [if_neg (by omega)]
  simp only [hsome]
  by_cases hc : toDouble cfg.mMinChange ≤ toDouble (absDiff (toDouble width) pv[s - 1])
      ∧ pv[s - 1] ≠ toDouble width
  · rw [if_pos hc]
    exact ⟨_, rfl, by simp⟩
  · rw [if_neg hc]
    exact ⟨_, rfl, rfl⟩

theorem SamplesToUs_one_MHz {d : Nat} (h : d * 1000000 < 2 ^ 64) :
    SamplesToUs 1000000 d = some d := by
  unfold SamplesToUs
  rw [if_neg (by norm_num), Nat.mod_eq_of_lt h, Nat.mul_div_cancel _ (by norm_num)]

theorem round_trip_from (cfg : CPPMAnalyzerSettings)
    (pulses : List (Nat × Nat × BitState × BitState)) : ∀ (start ch : Nat) (pv : List Nat),
    ch + pulses.length ≤ 255 → ch + pulses.length ≤ cfg.mMaxChan →
    pv.length = cfg.mMaxChan →
    (∀ x ∈ pulses, x.1 + x.2.1 < cfg.mSyncTime ∧ (x.1 + x.2.1) * 1000000 < 2 ^ 64) →
    (observations (traceEvents
        (frameDecoder cfg 1000000 start ch pv (synthEdges start pulses)))).map
      (fun f => (f.mData2, f.mData1, f.isError)) =
    List.zipWith (fun i x => (i, x.1 + x.2.1, false))
      (List.range' (ch + 1) pulses.length) pulses := by
  induction pulses with
  | nil => intro start ch pv _ _ _ _; rfl
  | cons x rest ih =>
    intro start ch pv h255 hmax hlen hw
    obtain ⟨a, b, s1, s2⟩ := x
    simp only [List.length_cons] at h255 hmax
    obtain ⟨hT, hfit⟩ := hw (a, b, s1, s2) (List.mem_cons_self _ _)
    simp only at hT hfit
    obtain ⟨d, hd, hdlen⟩ :=
      changeDetector_defined cfg (a + b) (Nat.le_add_left 1 ch)
        (by omega : ch + 1 ≤ pv.length)
    have hmod : (ch + 1) % 256 = ch + 1 := Nat.mod_eq_of_lt (by omega)
    have hwidth : SamplesToUs 1000000 (subU64 (start + a + b) start) = some (a + b) := by
      rw [Nat.add_assoc, subU64_add_left, Nat.mod_eq_of_lt (by omega)]
      exact SamplesToUs_one_MHz hfit
    have hstep : decoderStep cfg 1000000 start { sample := start + a, state := s1 }
        { sample := start + a + b, state := s2 } ch pv =
        StepResult.pulse (inRangeEvents (a + b) (ch + 1) (start + a) (start + a + b) d)
          (ch + 1) d.prevs := by
      unfold decoderStep
      simp only [hwidth, hmod]
      rw [if_neg (fun h => absurd h.1 (by omega)), if_neg (by omega)]
      simp only [hd]
    have hih := ih (start + a + b) (ch + 1) d.prevs (by omega) (by omega)
      (hdlen.trans hlen) (fun y hy => hw y (List.mem_cons_of_mem _ hy))
    simp only [synthEdges, frameDecoder_cons_cons, hstep, traceEvents_cons, StepResult.events,
      observations_append, observations_inRangeEvents, List.map_append, List.map_cons,
      List.map_nil, hih, List.length_cons, List.range'_succ, List.zipWith_cons_cons,
      List.singleton_append]
    simp [Frame.isError]

set_option maxRecDepth 1000000 in
/-- C1, as stated, fails in two ways.  (a) The slot counter is 8 bits wide:
with 256 channels configured, a frame of 256 pulses (each 2 samples, below
the threshold 3) yields only 255 observations; on the 256th pulse the counter
wraps to 0 and the table is indexed at -1, which is undefined.  (b) The
product `samples * 1000000` wraps modulo `2 ^ 64`: a pulse of `2 ^ 63`
samples, below the threshold `2 ^ 63 + 1`, is reported with width 0. -/
theorem round_trip_refuted :
    ((observations (traceEvents (frameDecoder cfg256 1000000 0 0 (List.replicate 256 0)
        (synthEdges 0 body256)))).length = 255 ∧
      (frameDecoder cfg256 1000000 0 0 (List.replicate 256 0)
        (synthEdges 0 body256)).getLast? = some StepResult.undefined) ∧
    (observations (traceEvents (frameDecoder cfgHuge 1000000 0 0 [0]
        (synthEdges 0 [(1, 2 ^ 63 - 1, BitState.BIT_HIGH, BitState.BIT_LOW)])))).map
      (fun f => (f.mData2, f.mData1, f.isError)) = [(1, 0, false)] := by
  decide

/-- C1, amended: at a sample rate of 1,000,000 Hz, for every threshold
`mSyncTime`, every `n ≤ 255`, every `mMaxChan ≥ n` and every list of `n`
pulses whose widths are below `mSyncTime` and small enough for
`width * 1000000` to fit in 64 bits: the decoder loop, started with slot
counter 0 (any start position, any table of `mMaxChan` entries) on the edge
stream in which each pulse is two consecutive edges spanning its width, emits
exactly `n` observations, the `i`-th with channel slot `i` and the `i`-th
width, none of them error-flagged. -/
theorem round_trip (cfg : CPPMAnalyzerSettings) (start : Nat)
    (pulses : List (Nat × Nat × BitState × BitState)) (prevs : List Nat)
    (h255 : pulses.length ≤ 255) (hmax : pulses.length ≤ cfg.mMaxChan)
    (hlen : prevs.length = cfg.mMaxChan)
    (hw : ∀ x ∈ pulses, x.1 + x.2.1 < cfg.mSyncTime ∧ (x.1 + x.2.1) * 1000000 < 2 ^ 64) :
    (observations (traceEvents
        (frameDecoder cfg 1000000 start 0 prevs (synthEdges start pulses)))).map
      (fun f => (f.mData2, f.mData1, f.isError)) =
      List.zipWith (fun i x => (i, x.1 + x.2.1, false)) (List.range' 1 pulses.length) pulses ∧
    (observations (traceEvents
        (frameDecoder cfg 1000000 start 0 prevs (synthEdges start pulses)))).length =
      pulses.length := by
  have h := round_trip_from cfg pulses start 0 prevs (by omega) (by omega) hlen hw
  refine ⟨h, ?_⟩
  have hl := congrArg List.length h
  simpa using hl

/-- C1, witness: the frame sync(5000) + `[1000, 1500, 2000]` at 1 MHz with
three channels yields (slot 1, 1000), (slot 2, 1500), (slot 3, 2000), none
error-flagged, both for the decoder loop started at the lock point 5100 and
for the whole worker thread on the stream with its sync gap. -/
theorem round_trip_witness :
    (observations (WorkerThread cfg3 1000000 0 stream3)).map
        (fun f => (f.mData2, f.mData1, f.isError)) =
      [(1, 1000, false), (2, 1500, false), (3, 2000, false)] ∧
    List.zipWith (fun i (x : Nat × Nat × BitState × BitState) => (i, x.1 + x.2.1, false))
        (List.range' 1 body3.length) body3 =
      [(1, 1000, false), (2, 1500, false), (3, 2000, false)] ∧
    (observations (traceEvents
        (frameDecoder cfg3 1000000 5100 0 [0, 0, 0] (synthEdges 5100 body3)))).map
      (fun f => (f.mData2, f.mData1, f.isError)) =
      List.zipWith (fun i x => (i, x.1 + x.2.1, false)) (List.range' 1 body3.length) body3 ∧
    (observations (traceEvents
        (frameDecoder cfg3 1000000 5100 0 [0, 0, 0] (synthEdges 5100 body3)))).length =
      body3.length :=
  ⟨by decide, by decide,
   round_trip cfg3 5100 body3 [0, 0, 0] (by decide) (by decide) (by decide) (by decide)⟩

/-! ## C13: conversion of sample counts to microseconds -/

/-- C13, as stated, fails: the product `samples * 1000000` is computed in 64
bits and wraps.  At 1 MHz the delta `2 ^ 63` is converted to 0 µs, neither
`2 ^ 63` nor `(2 ^ 63 * 1000000) / 1000000`. -/
theorem samples_to_us_wraps_refuted :
    SamplesToUs 1000000 (2 ^ 63) = some 0 ∧ 2 ^ 63 * 1000000 / 1000000 = 2 ^ 63 ∧
    (2 ^ 63 : Nat) < 2 ^ 64 := by
  decide

/-- C13, amended: for every sample delta `d` and every sample rate `r > 0`,
`SamplesToUs(d)` is `((d * 1000000) mod 2 ^ 64) / r` rounded down; when
`d * 1000000` fits in 64 bits this is `(d * 1000000) / r` rounded down, and
then at `r = 1000000` Hz it is `d`. -/
theorem samples_to_us_value (d r : Nat) (hr : 0 < r) :
    SamplesToUs r d = some (d * 1000000 % 2 ^ 64 / r) ∧
    (d * 1000000 < 2 ^ 64 → SamplesToUs r d = some (d * 1000000 / r)) ∧
    (d * 1000000 < 2 ^ 64 → SamplesToUs 1000000 d = some d) := by
  refine ⟨SamplesToUs_pos hr d, ?_, fun h => SamplesToUs_one_MHz h⟩
  intro h
  rw [SamplesToUs_pos hr d, Nat.mod_eq_of_lt h]

/-- C13, witness: 1500 samples are 1500 µs at 1 MHz and 62 µs at 24 MHz. -/
theorem samples_to_us_value_witness :
    SamplesToUs 24000000 1500 = some (1500 * 1000000 % 2 ^ 64 / 24000000) ∧
    ((1500 : Nat) * 1000000 < 2 ^ 64 →
      SamplesToUs 24000000 1500 = some (1500 * 1000000 / 24000000)) ∧
    ((1500 : Nat) * 1000000 < 2 ^ 64 → SamplesToUs 1000000 1500 = some 1500) :=
  samples_to_us_value 1500 24000000 (by decide)

/-! ## C12: the polarity test -/

theorem CorrectSyncDir_congr {cfg cfg' : CPPMAnalyzerSettings}
    (h : cfg.mSyncDir = cfg'.mSyncDir) (state : BitState) :
    CorrectSyncDir cfg state = CorrectSyncDir cfg' state := by
  unfold CorrectSyncDir
  rw [h]

theorem syncAcquire_cons (cfg : CPPMAnalyzerSettings) (rate cur : Nat) (e : Edge)
    (rest : List Edge) {us : Nat} (hus : SamplesToUs rate (subU64 e.sample cur) = some us) :
    syncAcquire cfg rate cur (e :: rest) =
      if cfg.mSyncTime ≤ us ∧ CorrectSyncDir cfg e.state = true then
        AcquireResult.locked e.sample e.state rest
      else syncAcquire cfg rate e.sample rest := by
  simp only [syncAcquire, hus]
  by_cases h1 : us < cfg.mSyncTime
  · rw [if_pos h1, if_neg (fun h => absurd h.1 (Nat.not_le.2 h1))]
  · rw [if_neg h1]
    by_cases h2 : CorrectSyncDir cfg e.state = true
    · rw [if_pos h2, if_pos ⟨Nat.not_lt.1 h1, h2⟩]
    · rw [if_neg h2, if_neg (fun h => h2 h.2)]

/-- C12: the sync-confirmation test depends only on the bit level and the
polarity setting: for low-is-inactive it accepts iff the level is low, for
high-is-inactive iff the level is high, and for every other setting value
(auto) it accepts every level.  The sync acquirer and the boundary test of
the decoder use this same function: on an edge whose interval `us` reaches
`mSyncTime` the acquirer locks iff the test accepts the level after the edge,
and a decoder step is a sync gap iff its width reaches `mSyncTime` and the
test accepts the level after its second edge. -/
theorem polarity_test (cfg : CPPMAnalyzerSettings) (state : BitState) :
    (cfg.mSyncDir = LOW_IS_INACTIVE →
      (CorrectSyncDir cfg state = true ↔ state = BitState.BIT_LOW)) ∧
    (cfg.mSyncDir = HIGH_IS_INACTIVE →
      (CorrectSyncDir cfg state = true ↔ state = BitState.BIT_HIGH)) ∧
    (cfg.mSyncDir ≠ LOW_IS_INACTIVE → cfg.mSyncDir ≠ HIGH_IS_INACTIVE →
      CorrectSyncDir cfg state = true) ∧
    (∀ cfg' : CPPMAnalyzerSettings, cfg'.mSyncDir = cfg.mSyncDir →
      CorrectSyncDir cfg' state = CorrectSyncDir cfg state) ∧
    (∀ (rate cur us : Nat) (e : Edge) (rest : List Edge),
      SamplesToUs rate (subU64 e.sample cur) = some us →
      syncAcquire cfg rate cur (e :: rest) =
        if cfg.mSyncTime ≤ us ∧ CorrectSyncDir cfg e.state = true then
          AcquireResult.locked e.sample e.state rest
        else syncAcquire cfg rate e.sample rest) ∧
    (∀ (rate start channel : Nat) (e1 e2 : Edge) (prevs : List Nat),
      decoderStep cfg rate start e1 e2 channel prevs = StepResult.syncGap 0 prevs ↔
        ∃ width, SamplesToUs rate (subU64 e2.sample start) = some width ∧
          cfg.mSyncTime ≤ width ∧ CorrectSyncDir cfg e2.state = true) := by
  refine ⟨?_, ?_, ?_, fun cfg' h => CorrectSyncDir_congr h state, ?_, ?_⟩
  · intro h
    unfold CorrectSyncDir
    rw [h]
    cases state <;> simp [LOW_IS_INACTIVE]
  · intro h
    unfold CorrectSyncDir
    rw [h]
    cases state <;> simp [HIGH_IS_INACTIVE]
  · intro h1 h2
    unfold CorrectSyncDir
    unfold LOW_IS_INACTIVE at h1
    unfold HIGH_IS_INACTIVE at h2
    split
    · rename_i heq
      exact absurd heq h1
    · rename_i heq
      exact absurd heq h2
    · rfl
  · intro rate cur us e rest hus
    exact syncAcquire_cons cfg rate cur e rest hus
  · intro rate start channel e1 e2 prevs
    constructor
    · intro h
      exact (decoderStep_syncGap h).2.2
    · rintro ⟨width, hw, hT, hdir⟩
      unfold decoderStep
      simp only [hw]
      rw [if_pos ⟨hT, hdir⟩]

/-- C12, witness: with the setting low-is-inactive (`cfgLow`) a low level is
accepted and a high level is rejected; with auto (`cfg3`) both are accepted. -/
theorem polarity_test_witness :
    (CorrectSyncDir cfgLow BitState.BIT_LOW = true ∧
      CorrectSyncDir cfgLow BitState.BIT_HIGH = false ∧
      CorrectSyncDir cfg3 BitState.BIT_LOW = true ∧
      CorrectSyncDir cfg3 BitState.BIT_HIGH = true) ∧
    (CorrectSyncDir cfgLow BitState.BIT_LOW = true ↔ BitState.BIT_LOW = BitState.BIT_LOW) :=
  ⟨by decide, (polarity_test cfgLow BitState.BIT_LOW).1 (by decide)⟩

/-! ## Iterations of a run -/

/-- Every iteration of a run advances over two consecutive edges of the
stream, starts at the position reached before them, and runs on a state that
satisfies every invariant `Inv` of the loop that holds initially. -/
theorem frameDecoder_steps (cfg : CPPMAnalyzerSettings) (rate : Nat)
    (Inv : Nat → List Nat → Prop)
    (hsync : ∀ s e1 e2 ch pv c p, Inv ch pv →
      decoderStep cfg rate s e1 e2 ch pv = StepResult.syncGap c p → Inv c p)
    (hpulse : ∀ s e1 e2 ch pv ev c p, Inv ch pv →
      decoderStep cfg rate s e1 e2 ch pv = StepResult.pulse ev c p → Inv c p)
    (edges : List Edge) : ∀ (start ch : Nat) (pv : List Nat), Inv ch pv →
    ∀ r ∈ frameDecoder cfg rate start ch pv edges,
      ∃ pre e1 e2 rest ch' pv', edges = pre ++ e1 :: e2 :: rest ∧ pre.length % 2 = 0 ∧
        Inv ch' pv' ∧ r = decoderStep cfg rate (positionAfter start pre) e1 e2 ch' pv' := by
  induction edges using pairs_induction with
  | h0 => intro start ch pv _ r h; simp [frameDecoder] at h
  | h1 a => intro start ch pv _ r h; simp [frameDecoder] at h
  | h2 e1 e2 rest ih =>
    intro start ch pv hinv r h
    rw [frameDecoder_cons_cons] at h
    have hhead : ∃ pre a b rest' ch' pv', e1 :: e2 :: rest = pre ++ a :: b :: rest' ∧
        pre.length % 2 = 0 ∧ Inv ch' pv' ∧
        decoderStep cfg rate start e1 e2 ch pv =
          decoderStep cfg rate (positionAfter start pre) a b ch' pv' :=
      ⟨[], e1, e2, rest, ch, pv, rfl, rfl, hinv, rfl⟩
    have htail : ∀ c p, Inv c p → r ∈ frameDecoder cfg rate e2.sample c p rest →
        ∃ pre a b rest' ch' pv', e1 :: e2 :: rest = pre ++ a :: b :: rest' ∧
          pre.length % 2 = 0 ∧ Inv ch' pv' ∧
          r = decoderStep cfg rate (positionAfter start pre) a b ch' pv' := by
      intro c p hcp hmem
      obtain ⟨pre, a, b, rest', ch', pv', hedges, heven, hinv', hr⟩ := ih e2.sample c p hcp r hmem
      refine ⟨e1 :: e2 :: pre, a, b, rest', ch', pv', ?_, ?_, hinv', ?_⟩
      · rw [hedges]; rfl
      · simp only [List.length_cons]; omega
      · rw [positionAfter_cons, positionAfter_cons]; exact hr
    cases hd : decoderStep cfg rate start e1 e2 ch pv with
    | undefined =>
      simp only [hd, List.mem_singleton] at h
      rw [h, ← hd]
      exact hhead
    | syncGap c p =>
      simp only [hd, List.mem_cons] at h
      rcases h with h | h
      · rw [h, ← hd]
        exact hhead
      · exact htail c p (hsync _ _ _ _ _ _ _ hinv hd) h
    | pulse ev c p =>
      simp only [hd, List.mem_cons] at h
      rcases h with h | h
      · rw [h, ← hd]
        exact hhead
      · exact htail c p (hpulse _ _ _ _ _ _ _ _ hinv hd) h

/-- The two outcomes of the change-detecting branch. -/
theorem changeDetector_cases {cfg : CPPMAnalyzerSettings} {width s : Nat} {pv : List Nat}
    {d : Detection} (h : changeDetector cfg width s pv = some d) :
    (d.mType = 1 ∧ d.prevs = pv.set (s - 1) (toDouble width)) ∨
    (d.mType = 0 ∧ d.marker = none ∧ d.prevs = pv) := by
  have hrange := changeDetector_some h
  unfold changeDetector at h
  rw [if_neg (by omega)] at h
  cases hp : pv[s - 1]? with
  | none => simp [hp] at h
  | some prev =>
    simp only [hp] at h
    by_cases hc : toDouble cfg.mMinChange ≤ toDouble (absDiff (toDouble width) prev)
        ∧ prev ≠ toDouble width
    · rw [if_pos hc] at h
      injection h with h
      subst h
      exact Or.inl ⟨rfl, rfl⟩
    · rw [if_neg hc] at h
      injection h with h
      subst h
      exact Or.inr ⟨rfl, rfl, rfl⟩

/-! ## C16: effect of an iteration on the table of previous widths -/

/-- C16: a decoder step that is a sync gap leaves the table unchanged; a step
that emits leaves the length of the table unchanged, leaves every entry other
than the one of the emitted observation's slot unchanged, and leaves the whole
table unchanged when the observation is error-flagged (overflow branch) or
when no change is reported for it (frame type 0); in a run of the worker's
decoder loop, which starts with a table of `mMaxChan` entries, the table has
`mMaxChan` entries after every iteration. -/
theorem table_frame_effect (cfg : CPPMAnalyzerSettings) (rate start channel : Nat)
    (e1 e2 : Edge) (prevs : List Nat) :
    (∀ c p, decoderStep cfg rate start e1 e2 channel prevs = StepResult.syncGap c p →
      p = prevs) ∧
    (∀ ev c p, decoderStep cfg rate start e1 e2 channel prevs = StepResult.pulse ev c p →
      ∃ f, observations ev = [f] ∧ p.length = prevs.length ∧
        (f.isError = true → p = prevs) ∧ (f.mType = 0 → p = prevs) ∧
        (∀ i, i ≠ f.mData2 - 1 → p[i]? = prevs[i]?)) ∧
    (∀ (edges : List Edge) (pos : Nat),
      ∀ r ∈ frameDecoder cfg rate pos 0 (List.replicate cfg.mMaxChan 0) edges,
        r ≠ StepResult.undefined → r.prevs.length = cfg.mMaxChan) := by
  refine ⟨fun c p h => (decoderStep_syncGap h).2.1, ?_, ?_⟩
  · intro ev c p h
    obtain ⟨width, _, _, hcase⟩ := decoderStep_pulse h
    rcases hcase with ⟨_, hev, _, hp⟩ | ⟨_, d, hd, hev, _, hp⟩
    · refine ⟨_, by rw [hev]; exact observations_overflowEvents _ _ _, by rw [hp],
        fun _ => hp, fun _ => hp, fun i _ => by rw [hp]⟩
    · refine ⟨_, by rw [hev]; exact observations_inRangeEvents _ _ _ _ _, ?_, ?_, ?_, ?_⟩
      · rcases changeDetector_cases hd with ⟨_, hset⟩ | ⟨_, _, hsame⟩
        · rw [hp, hset, List.length_set]
        · rw [hp, hsame]
      · intro herr
        simp [Frame.isError] at herr
      · intro ht
        simp only at ht
        rcases changeDetector_cases hd with ⟨h1, _⟩ | ⟨_, _, hsame⟩
        · rw [h1] at ht
          cases ht
        · rw [hp, hsame]
      · intro i hi
        simp only at hi
        rcases changeDetector_cases hd with ⟨_, hset⟩ | ⟨_, _, hsame⟩
        · rw [hp, hset]
          exact List.getElem?_set_ne (fun h => hi h.symm)
        · rw [hp, hsame]
  · intro edges pos r hr hne
    obtain ⟨pre, a, b, rest, ch', pv', _, _, hinv, hstep⟩ :=
      frameDecoder_steps cfg rate (fun _ pv => pv.length = cfg.mMaxChan)
        (fun s x y ch pv c p hinv h => by rw [(decoderStep_syncGap h).2.1]; exact hinv)
        (fun s x y ch pv ev c p hinv h => by
          obtain ⟨_, _, _, _, _, _, _, hcase⟩ := decoderStep_pulse_observation h
          rcases hcase with ⟨_, _, _, _, _, hp, _⟩ | ⟨_, _, _, _, _, _, hlen⟩
          · rw [hp]; exact hinv
          · rw [hlen]; exact hinv)
        edges pos 0 (List.replicate cfg.mMaxChan 0) (by simp) r hr
    cases hres : decoderStep cfg rate (positionAfter pos pre) a b ch' pv' with
    | undefined => exact absurd (hstep.trans hres) hne
    | syncGap c p =>
      rw [hstep, hres]
      simp only [StepResult.prevs]
      rw [(decoderStep_syncGap hres).2.1]
      exact hinv
    | pulse ev c p =>
      rw [hstep, hres]
      simp only [StepResult.prevs]
      obtain ⟨_, _, _, _, _, _, _, hcase⟩ := decoderStep_pulse_observation hres
      rcases hcase with ⟨_, _, _, _, _, hp, _⟩ | ⟨_, _, _, _, _, _, hlen⟩
      · rw [hp]; exact hinv
      · rw [hlen]; exact hinv

/-! ## C15: geometry of an observation -/

theorem markers_inRangeEvents (width channel high end_ : Nat) (d : Detection) :
    markers (inRangeEvents width channel high end_ d) =
      match d.marker with
      | some m => [(midSample high end_, m)]
      | none => [] := by
  unfold inRangeEvents
  cases d.marker <;> rfl

theorem midSample_bounds {high end_ : Nat} (hlt : high < end_) (hb : end_ < 2 ^ 64) :
    midSample high end_ = end_ - (end_ - high) / 2 ∧
    high < end_ - (end_ - high) / 2 ∧ end_ - (end_ - high) / 2 ≤ end_ := by
  unfold midSample
  rw [subU64_of_le (Nat.le_of_lt hlt) hb,
    subU64_of_le (Nat.le_trans (Nat.div_le_self _ _) (Nat.sub_le _ _)) hb]
  omega

/-- C15: every iteration of a run that emits advances over two consecutive
edges `e1` (`high`) and `e2` (`end`) of the stream, after an even number of
edges, from the position `start` reached before them (the end of the previous
iteration, or the initial position of the loop).  The width of its frame is
`SamplesToUs(end - start)` in `U64` arithmetic (the plain difference when
`start ≤ end < 2 ^ 64`), measured from `start` and not from `high`; the frame
starts at `high` and ends at `end`; every marker emitted for it is an error
cross or an arrow placed at `end - (end - high) / 2` in `U64` arithmetic, and
when `high < end < 2 ^ 64` this is the plain value `mid`, with
`high < mid ≤ end`. -/
theorem observation_geometry (cfg : CPPMAnalyzerSettings) (rate start channel : Nat)
    (prevs : List Nat) (edges : List Edge) (ev : List Event) (c : Nat) (p : List Nat)
    (hr : StepResult.pulse ev c p ∈ frameDecoder cfg rate start channel prevs edges) :
    ∃ pre e1 e2 rest width f, edges = pre ++ e1 :: e2 :: rest ∧ pre.length % 2 = 0 ∧
      SamplesToUs rate (subU64 e2.sample (positionAfter start pre)) = some width ∧
      (positionAfter start pre ≤ e2.sample → e2.sample < 2 ^ 64 →
        SamplesToUs rate (e2.sample - positionAfter start pre) = some width) ∧
      observations ev = [f] ∧ f.mData1 = width ∧
      f.mStartingSampleInclusive = e1.sample ∧ f.mEndingSampleInclusive = e2.sample ∧
      (∀ m ∈ markers ev, m.1 = subU64 e2.sample (subU64 e2.sample e1.sample / 2) ∧
        m.2 ≠ MarkerType.Dot) ∧
      (e1.sample < e2.sample → e2.sample < 2 ^ 64 →
        subU64 e2.sample (subU64 e2.sample e1.sample / 2) =
          e2.sample - (e2.sample - e1.sample) / 2 ∧
        e1.sample < e2.sample - (e2.sample - e1.sample) / 2 ∧
        e2.sample - (e2.sample - e1.sample) / 2 ≤ e2.sample) := by
  obtain ⟨pre, e1, e2, rest, ch', pv', hedges, heven, _, hstep⟩ :=
    frameDecoder_steps cfg rate (fun _ _ => True) (fun _ _ _ _ _ _ _ _ _ => trivial)
      (fun _ _ _ _ _ _ _ _ _ _ => trivial) edges start channel prevs trivial _ hr
  obtain ⟨width, f, hw, hobs, hd1, hs, he, _⟩ := decoderStep_pulse_observation hstep.symm
  refine ⟨pre, e1, e2, rest, width, f, hedges, heven, hw, ?_, hobs, hd1, hs, he, ?_, ?_⟩
  · intro hle hb
    rw [← subU64_of_le hle hb]
    exact hw
  · obtain ⟨_, _, _, hcase⟩ := decoderStep_pulse hstep.symm
    rcases hcase with ⟨_, hev, _, _⟩ | ⟨_, d, hd, hev, _, _⟩
    · intro m hm
      rw [hev] at hm
      simp only [overflowEvents, markers, List.mem_singleton] at hm
      rw [hm]
      exact ⟨rfl, fun h => MarkerType.noConfusion h⟩
    · intro m hm
      rw [hev, markers_inRangeEvents] at hm
      have hne := changeDetector_marker_ne_dot hd
      cases hmk : d.marker with
      | none => simp [hmk] at hm
      | some k =>
        simp only [hmk, List.mem_singleton] at hm
        rw [hm]
        refine ⟨rfl, ?_⟩
        intro hk
        simp only at hk
        exact hne (by rw [hmk, hk])
  · intro hlt hb
    exact midSample_bounds hlt hb

/-- C15, witness: in the frame body `[1000, 1500, 2000]` decoded from the lock
point 5100, the second pulse starts at 6100, rises at 6500 and ends at 7600:
its width is 1500 (not 1100), its frame spans 6500..7600 and its marker is at
7600 - 1100 / 2 = 7050. -/
theorem observation_geometry_witness :
    StepResult.pulse
        (inRangeEvents 1500 2 6500 7600
          { marker := some MarkerType.UpArrow, mType := 1, prevs := [1000, 1500, 0] })
        2 [1000, 1500, 0] ∈
      frameDecoder cfg3 1000000 5100 0 [0, 0, 0] (synthEdges 5100 body3) ∧
    markers (inRangeEvents 1500 2 6500 7600
        { marker := some MarkerType.UpArrow, mType := 1, prevs := [1000, 1500, 0] }) =
      [(7050, MarkerType.UpArrow)] ∧
    ∃ pre e1 e2 rest width f, synthEdges 5100 body3 = pre ++ e1 :: e2 :: rest ∧
      pre.length % 2 = 0 ∧
      SamplesToUs 1000000 (subU64 e2.sample (positionAfter 5100 pre)) = some width ∧
      (positionAfter 5100 pre ≤ e2.sample → e2.sample < 2 ^ 64 →
        SamplesToUs 1000000 (e2.sample - positionAfter 5100 pre) = some width) ∧
      observations (inRangeEvents 1500 2 6500 7600
        { marker := some MarkerType.UpArrow, mType := 1, prevs := [1000, 1500, 0] }) = [f] ∧
      f.mData1 = width ∧
      f.mStartingSampleInclusive = e1.sample ∧ f.mEndingSampleInclusive = e2.sample ∧
      (∀ m ∈ markers (inRangeEvents 1500 2 6500 7600
          { marker := some MarkerType.UpArrow, mType := 1, prevs := [1000, 1500, 0] }),
        m.1 = subU64 e2.sample (subU64 e2.sample e1.sample / 2) ∧ m.2 ≠ MarkerType.Dot) ∧
      (e1.sample < e2.sample → e2.sample < 2 ^ 64 →
        subU64 e2.sample (subU64 e2.sample e1.sample / 2) =
          e2.sample - (e2.sample - e1.sample) / 2 ∧
        e1.sample < e2.sample - (e2.sample - e1.sample) / 2 ∧
        e2.sample - (e2.sample - e1.sample) / 2 ≤ e2.sample) :=
  ⟨by decide, by decide,
   observation_geometry cfg3 1000000 5100 0 [0, 0, 0] (synthEdges 5100 body3) _ 2
     [1000, 1500, 0] (by decide)⟩

/-! ## C17: the polarity test of the decoder after lock -/

theorem bitState_flip {b x y : BitState} (hx : x ≠ b) (hy : y ≠ x) : y = b := by
  cases b <;> cases x <;> cases y <;> simp at hx hy ⊢

theorem alternating_cons {b : BitState} {e : Edge} {rest : List Edge}
    (h : alternating b (e :: rest) = true) : e.state ≠ b ∧ alternating e.state rest = true := by
  simpa [alternating] using h

theorem alternating_even (e1 e2 : Edge) (post : List Edge) (pre : List Edge) :
    ∀ b : BitState, alternating b (pre ++ e1 :: e2 :: post) = true → pre.length % 2 = 0 →
    e2.state = b := by
  induction pre using pairs_induction with
  | h0 =>
    intro b h _
    obtain ⟨h1, h'⟩ := alternating_cons h
    exact bitState_flip h1 (alternating_cons h').1
  | h1 a =>
    intro b _ hlen
    simp at hlen
  | h2 x y l ih =>
    intro b h hlen
    obtain ⟨h1, h'⟩ := alternating_cons h
    obtain ⟨h2, h''⟩ := alternating_cons h'
    have hy : y.state = b := bitState_flip h1 h2
    rw [hy] at h''
    exact ih b h'' (by simp only [List.length_cons] at hlen; omega)

theorem syncAcquire_locked_alternating (cfg : CPPMAnalyzerSettings) (rate : Nat)
    (edges : List Edge) : ∀ (cur : Nat) (b : BitState) (pos : Nat) (st : BitState)
    (rest : List Edge), alternating b edges = true →
    syncAcquire cfg rate cur edges = AcquireResult.locked pos st rest →
    CorrectSyncDir cfg st = true ∧ alternating st rest = true := by
  induction edges with
  | nil => intro cur b pos st rest _ h; simp [syncAcquire] at h
  | cons e es ih =>
    intro cur b pos st rest halt h
    obtain ⟨_, hes⟩ := alternating_cons halt
    cases hw : SamplesToUs rate (subU64 e.sample cur) with
    | none => simp [syncAcquire, hw] at h
    | some us =>
      rw [syncAcquire_cons cfg rate cur e es hw] at h
      by_cases hc : cfg.mSyncTime ≤ us ∧ CorrectSyncDir cfg e.state = true
      · rw [if_pos hc] at h
        injection h with _ hst hrest
        rw [← hst, ← hrest]
        exact ⟨hc.2, hes⟩
      · rw [if_neg hc] at h
        exact ih _ _ _ _ _ hes h

/-- C17: on an edge stream whose levels alternate on every edge, once the
sync acquirer has locked (on an edge whose level `st` satisfies the polarity
test), every iteration of the decoder loop advances over two edges that
follow an even number of edges after the lock point, the level it reads for
its boundary test (the level after its second edge) is the lock level `st`,
the polarity test succeeds, and the iteration is a sync gap if and only if
its width is defined and at least `mSyncTime`, for every polarity setting. -/
theorem polarity_vacuous_after_lock (cfg : CPPMAnalyzerSettings) (rate cur : Nat)
    (b0 : BitState) (edges : List Edge) (pos : Nat) (st : BitState) (rest : List Edge)
    (r : StepResult) (halt : alternating b0 edges = true)
    (hlock : syncAcquire cfg rate cur edges = AcquireResult.locked pos st rest)
    (hr : r ∈ frameDecoder cfg rate pos 0 (List.replicate cfg.mMaxChan 0) rest) :
    CorrectSyncDir cfg st = true ∧
    ∃ pre e1 e2 post ch pv, rest = pre ++ e1 :: e2 :: post ∧ pre.length % 2 = 0 ∧
      r = decoderStep cfg rate (positionAfter pos pre) e1 e2 ch pv ∧
      e2.state = st ∧ CorrectSyncDir cfg e2.state = true ∧
      (r = StepResult.syncGap 0 pv ↔
        ∃ width, SamplesToUs rate (subU64 e2.sample (positionAfter pos pre)) = some width ∧
          cfg.mSyncTime ≤ width) := by
  obtain ⟨hst, hrest⟩ :=
    syncAcquire_locked_alternating cfg rate edges cur b0 pos st rest halt hlock
  refine ⟨hst, ?_⟩
  obtain ⟨pre, e1, e2, post, ch, pv, hedges, heven, _, hstep⟩ :=
    frameDecoder_steps cfg rate (fun _ _ => True) (fun _ _ _ _ _ _ _ _ _ => trivial)
      (fun _ _ _ _ _ _ _ _ _ _ => trivial) rest pos 0 (List.replicate cfg.mMaxChan 0)
      trivial r hr
  rw [hedges] at hrest
  have he2 : e2.state = st := alternating_even e1 e2 post pre st hrest heven
  have hdir : CorrectSyncDir cfg e2.state = true := by rw [he2]; exact hst
  refine ⟨pre, e1, e2, post, ch, pv, hedges, heven, hstep, he2, hdir, ?_⟩
  rw [hstep]
  constructor
  · intro h
    obtain ⟨_, _, width, hw, hT, _⟩ := decoderStep_syncGap h
    exact ⟨width, hw, hT⟩
  · rintro ⟨width, hw, hT⟩
    unfold decoderStep
    simp only [hw]
    rw [if_pos ⟨hT, hdir⟩]

/-- C17, witness: on the alternating polarity-rejection stream with the
polarity "accept a low level", lock is acquired at sample 11000 on a low
level; the one iteration after it reads the level low again at its end
(sample 12000) and, its width 1000 being below 3000, is not a sync gap. -/
theorem polarity_vacuous_after_lock_witness :
    syncAcquire cfgLow 1000000 0 streamRejected =
      AcquireResult.locked 11000 BitState.BIT_LOW
        [{ sample := 11400, state := BitState.BIT_HIGH },
         { sample := 12000, state := BitState.BIT_LOW }] ∧
    CorrectSyncDir cfgLow BitState.BIT_LOW = true ∧
    ∃ pre e1 e2 post ch pv,
      [{ sample := 11400, state := BitState.BIT_HIGH },
       ({ sample := 12000, state := BitState.BIT_LOW } : Edge)] = pre ++ e1 :: e2 :: post ∧
      pre.length % 2 = 0 ∧
      StepResult.pulse
          (inRangeEvents 1000 1 11400 12000
            { marker := some MarkerType.UpArrow, mType := 1, prevs := [1000, 0, 0] })
          1 [1000, 0, 0] =
        decoderStep cfgLow 1000000 (positionAfter 11000 pre) e1 e2 ch pv ∧
      e2.state = BitState.BIT_LOW ∧ CorrectSyncDir cfgLow e2.state = true ∧
      (StepResult.pulse
          (inRangeEvents 1000 1 11400 12000
            { marker := some MarkerType.UpArrow, mType := 1, prevs := [1000, 0, 0] })
          1 [1000, 0, 0] = StepResult.syncGap 0 pv ↔
        ∃ width, SamplesToUs 1000000 (subU64 e2.sample (positionAfter 11000 pre)) = some width ∧
          cfgLow.mSyncTime ≤ width) :=
  ⟨by decide,
   polarity_vacuous_after_lock cfgLow 1000000 0 BitState.BIT_HIGH streamRejected 11000
     BitState.BIT_LOW
     [{ sample := 11400, state := BitState.BIT_HIGH },
      { sample := 12000, state := BitState.BIT_LOW }]
     (StepResult.pulse
       (inRangeEvents 1000 1 11400 12000
         { marker := some MarkerType.UpArrow, mType := 1, prevs := [1000, 0, 0] })
       1 [1000, 0, 0])
     (by decide) (by decide) (by decide)⟩

/-! ## C19: safety of the table indexing -/

/-- An iteration is undefined only by a division by a zero sample rate or by
a read of the table outside its bounds in the change-detecting branch. -/
theorem decoderStep_undefined {cfg : CPPMAnalyzerSettings} {rate start : Nat} {e1 e2 : Edge}
    {ch : Nat} {pv : List Nat}
    (h : decoderStep cfg rate start e1 e2 ch pv = StepResult.undefined) :
    rate = 0 ∨ (¬ cfg.mMaxChan < (ch + 1) % 256 ∧
      ∃ width, changeDetector cfg width ((ch + 1) % 256) pv = none) := by
  unfold decoderStep at h
  cases hw : SamplesToUs rate (subU64 e2.sample start) with
  | none =>
    left
    unfold SamplesToUs at hw
    by_cases h0 : rate = 0
    · exact h0
    · rw [if_neg h0] at hw
      cases hw
  | some width =>
    right
    simp only [hw] at h
    by_cases h1 : cfg.mSyncTime ≤ width ∧ CorrectSyncDir cfg e2.state = true
    · rw [if_pos h1] at h
      cases h
    · rw [if_neg h1] at h
      by_cases h2 : cfg.mMaxChan < (ch + 1) % 256
      · rw [if_pos h2] at h
        cases h
      · rw [if_neg h2] at h
        refine ⟨h2, width, ?_⟩
        cases hd : changeDetector cfg width ((ch + 1) % 256) pv with
        | none => rfl
        | some d => simp [hd] at h

/-- The slot counter never exceeds `mMaxChan` and the table keeps its
length. -/
theorem frameDecoder_bounded_steps (cfg : CPPMAnalyzerSettings) (rate : Nat)
    (edges : List Edge) (start : Nat) (r : StepResult)
    (hr : r ∈ frameDecoder cfg rate start 0 (List.replicate cfg.mMaxChan 0) edges) :
    ∃ pre e1 e2 rest ch pv, edges = pre ++ e1 :: e2 :: rest ∧ pre.length % 2 = 0 ∧
      (ch ≤ cfg.mMaxChan ∧ pv.length = cfg.mMaxChan) ∧
      r = decoderStep cfg rate (positionAfter start pre) e1 e2 ch pv := by
  refine frameDecoder_steps cfg rate (fun ch pv => ch ≤ cfg.mMaxChan ∧ pv.length = cfg.mMaxChan)
    ?_ ?_ edges start 0 (List.replicate cfg.mMaxChan 0) ⟨Nat.zero_le _, by simp⟩ r hr
  · intro s e1 e2 ch pv c p hinv h
    obtain ⟨hc, hp, _⟩ := decoderStep_syncGap h
    rw [hc, hp]
    exact ⟨Nat.zero_le _, hinv.2⟩
  · intro s e1 e2 ch pv ev c p hinv h
    obtain ⟨_, _, _, _, _, _, _, hcase⟩ := decoderStep_pulse_observation h
    rcases hcase with ⟨_, _, _, _, hc, hp, _⟩ | ⟨hin, _, _, hc, _, _, hlen⟩
    · rw [hc, hp]
      exact ⟨Nat.zero_le _, hinv.2⟩
    · rw [hc, hlen]
      exact ⟨Nat.le_of_not_lt hin, hinv.2⟩

/-- C19: for every configuration with `mMaxChan ≤ 254` (in particular
`1 ≤ mMaxChan ≤ 254`) and every edge stream, every iteration of the worker's
decoder loop starts with a slot counter `ch ≤ mMaxChan` whose 8-bit increment
does not wrap (`(ch + 1) mod 256 = ch + 1`) and with a table of exactly
`mMaxChan` entries; whenever the iteration reaches the branch that reads or
writes the table (the slot `ch + 1` does not exceed `mMaxChan`), the slot is
in `[1, mMaxChan]`, the index `slot - 1` is below the length of the table and
the access is defined for every width; with a positive sample rate no
iteration is undefined. -/
theorem table_indexing_safe (cfg : CPPMAnalyzerSettings) (rate start : Nat)
    (edges : List Edge) (r : StepResult) (hmax : cfg.mMaxChan ≤ 254)
    (hr : r ∈ frameDecoder cfg rate start 0 (List.replicate cfg.mMaxChan 0) edges) :
    (∃ pre e1 e2 rest ch pv, edges = pre ++ e1 :: e2 :: rest ∧ pre.length % 2 = 0 ∧
      r = decoderStep cfg rate (positionAfter start pre) e1 e2 ch pv ∧
      ch ≤ cfg.mMaxChan ∧ (ch + 1) % 256 = ch + 1 ∧ pv.length = cfg.mMaxChan ∧
      (¬ cfg.mMaxChan < (ch + 1) % 256 →
        1 ≤ (ch + 1) % 256 ∧ (ch + 1) % 256 ≤ cfg.mMaxChan ∧
        (ch + 1) % 256 - 1 < pv.length ∧
        ∀ width, ∃ d, changeDetector cfg width ((ch + 1) % 256) pv = some d)) ∧
    (0 < rate → r ≠ StepResult.undefined) := by
  obtain ⟨pre, e1, e2, rest, ch, pv, hedges, heven, ⟨hch, hlen⟩, hstep⟩ :=
    frameDecoder_bounded_steps cfg rate edges start r hr
  have hmod : (ch + 1) % 256 = ch + 1 := Nat.mod_eq_of_lt (by omega)
  have hsafe : ¬ cfg.mMaxChan < (ch + 1) % 256 →
      1 ≤ (ch + 1) % 256 ∧ (ch + 1) % 256 ≤ cfg.mMaxChan ∧
      (ch + 1) % 256 - 1 < pv.length ∧
      ∀ width, ∃ d, changeDetector cfg width ((ch + 1) % 256) pv = some d := by
    intro hin
    rw [hmod] at hin ⊢
    refine ⟨by omega, by omega, by omega, fun width => ?_⟩
    obtain ⟨d, hd, _⟩ := changeDetector_defined cfg width (Nat.le_add_left 1 ch)
      (by omega : ch + 1 ≤ pv.length)
    exact ⟨d, hd⟩
  refine ⟨⟨pre, e1, e2, rest, ch, pv, hedges, heven, hstep, hch, hmod, hlen, hsafe⟩, ?_⟩
  intro hrate hundef
  rw [hstep] at hundef
  rcases decoderStep_undefined hundef with h0 | ⟨hin, width, hnone⟩
  · omega
  · obtain ⟨d, hd⟩ := (hsafe hin).2.2.2 width
    rw [hd] at hnone
    cases hnone

/-- C19, witness: with three channels, the second iteration of the frame body
`[1000, 1500, 2000]` starts with slot counter 1 and a table of three entries,
and reads and writes the table at index 1. -/
theorem table_indexing_safe_witness :
    (∃ pre e1 e2 rest ch pv, synthEdges 5100 body3 = pre ++ e1 :: e2 :: rest ∧
      pre.length % 2 = 0 ∧
      StepResult.pulse
          (inRangeEvents 1500 2 6500 7600
            { marker := some MarkerType.UpArrow, mType := 1, prevs := [1000, 1500, 0] })
          2 [1000, 1500, 0] =
        decoderStep cfg3 1000000 (positionAfter 5100 pre) e1 e2 ch pv ∧
      ch ≤ cfg3.mMaxChan ∧ (ch + 1) % 256 = ch + 1 ∧ pv.length = cfg3.mMaxChan ∧
      (¬ cfg3.mMaxChan < (ch + 1) % 256 →
        1 ≤ (ch + 1) % 256 ∧ (ch + 1) % 256 ≤ cfg3.mMaxChan ∧
        (ch + 1) % 256 - 1 < pv.length ∧
        ∀ width, ∃ d, changeDetector cfg3 width ((ch + 1) % 256) pv = some d)) ∧
    ((0 : Nat) < 1000000 →
      StepResult.pulse
          (inRangeEvents 1500 2 6500 7600
            { marker := some MarkerType.UpArrow, mType := 1, prevs := [1000, 1500, 0] })
          2 [1000, 1500, 0] ≠ StepResult.undefined) :=
  table_indexing_safe cfg3 1000000 5100 (synthEdges 5100 body3)
    (StepResult.pulse
      (inRangeEvents 1500 2 6500 7600
        { marker := some MarkerType.UpArrow, mType := 1, prevs := [1000, 1500, 0] })
      2 [1000, 1500, 0])
    (by decide) (by decide)

/-! ## C14: a configuration that is not validated -/

theorem mem_observations_traceEvents {f : Frame} (trace : List StepResult)
    (h : f ∈ observations (traceEvents trace)) : ∃ r ∈ trace, f ∈ observations r.events := by
  induction trace with
  | nil => simp [traceEvents, observations] at h
  | cons r t ih =>
    rw [traceEvents_cons, observations_append, List.mem_append] at h
    rcases h with h | h
    · exact ⟨r, List.mem_cons_self _ _, h⟩
    · obtain ⟨r', hr', hf⟩ := ih h
      exact ⟨r', List.mem_cons_of_mem _ hr', hf⟩

/-- C14, as stated, fails: the worker thread does not check its
configuration.  With `mMaxChan = 0` at 1 MHz on the stream sync + `[1000,
1500, 2000]` it acquires lock, emits the lock marker at sample 5100 and emits
three observations (all error-flagged, slot 1); with a zero sample rate the
first interval conversion of the acquirer divides by zero. -/
theorem refuses_to_start_refuted :
    (lockMarkers (WorkerThread cfg0 1000000 0 stream3) = [5100] ∧
      (observations (WorkerThread cfg0 1000000 0 stream3)).map
          (fun f => (f.mData2, f.mData1, f.isError)) =
        [(1, 1000, true), (1, 1500, true), (1, 2000, true)]) ∧
    (SamplesToUs 0 (subU64 100 0) = none ∧
      syncAcquire cfg3 0 0 stream3 = AcquireResult.undefined) := by
  decide

/-! ## Drift of the stored width -/

theorem changeDetector_drift {cfg : CPPMAnalyzerSettings} {w s : Nat} {pv : List Nat}
    {d : Detection} (hw : w < 2 ^ 53) (hpv : ∀ x ∈ pv, x < 2 ^ 53)
    (h : changeDetector cfg w s pv = some d) :
    (∀ x ∈ d.prevs, x < 2 ^ 53) ∧
    ∃ q, d.prevs[s - 1]? = some q ∧ (q = w ∨ absDiff w q < cfg.mMinChange) := by
  have hbound : ∀ x ∈ d.prevs, x < 2 ^ 53 := by
    intro x hx
    rcases changeDetector_cases h with ⟨_, hset⟩ | ⟨_, _, hsame⟩
    · rw [hset] at hx
      rcases List.mem_or_eq_of_mem_set hx with hx | hx
      · exact hpv x hx
      · rw [hx, toDouble_of_lt hw]
        exact hw
    · rw [hsame] at hx
      exact hpv x hx
  refine ⟨hbound, ?_⟩
  obtain ⟨q, hq, hset⟩ := changeDetector_settles h
  refine ⟨q, hq, ?_⟩
  have hqb : q < 2 ^ 53 := hbound q (List.getElem?_mem hq)
  have hd : absDiff w q < 2 ^ 53 := by
    unfold absDiff
    split_ifs <;> omega
  rw [toDouble_of_lt hw, toDouble_of_lt hd] at hset
  by_cases hqw : q = w
  · exact Or.inl hqw
  · right
    have : ¬ toDouble cfg.mMinChange ≤ absDiff w q := fun hle => hset ⟨hle, hqw⟩
    rw [toDouble_le_iff hd] at this
    omega

theorem decoderStep_drift {cfg : CPPMAnalyzerSettings} {rate start : Nat} {e1 e2 : Edge}
    {ch : Nat} {pv : List Nat} {ev : List Event} {c : Nat} {p : List Nat} {f : Frame}
    (h : decoderStep cfg rate start e1 e2 ch pv = StepResult.pulse ev c p)
    (hobs : observations ev = [f]) (hw : f.mData1 < 2 ^ 53)
    (hpv : ∀ x ∈ pv, x < 2 ^ 53) :
    (∀ x ∈ p, x < 2 ^ 53) ∧
    (f.isError = false →
      ∃ q, p[f.mData2 - 1]? = some q ∧
        (q = f.mData1 ∨ absDiff f.mData1 q < cfg.mMinChange)) := by
  obtain ⟨width, _, _, hcase⟩ := decoderStep_pulse h
  rcases hcase with ⟨_, hev, _, hp⟩ | ⟨_, d, hd, hev, _, hp⟩
  · rw [hev, observations_overflowEvents] at hobs
    injection hobs with hf _
    subst hf
    refine ⟨by rw [hp]; exact hpv, ?_⟩
    intro herr
    simp [Frame.isError, DISPLAY_AS_ERROR_FLAG] at herr
  · rw [hev, observations_inRangeEvents] at hobs
    injection hobs with hf _
    subst hf
    simp only at hw
    obtain ⟨hb, q, hq, hdrift⟩ := changeDetector_drift hw hpv hd
    rw [hp]
    exact ⟨hb, fun _ => ⟨q, hq, hdrift⟩⟩

theorem frameDecoder_drift (cfg : CPPMAnalyzerSettings) (rate : Nat) (edges : List Edge) :
    ∀ (start ch : Nat) (pv : List Nat), (∀ x ∈ pv, x < 2 ^ 53) →
    (∀ f ∈ observations (traceEvents (frameDecoder cfg rate start ch pv edges)),
      f.mData1 < 2 ^ 53) →
    ∀ (ev : List Event) (c : Nat) (p : List Nat) (f : Frame),
    StepResult.pulse ev c p ∈ frameDecoder cfg rate start ch pv edges →
    observations ev = [f] → f.isError = false →
    ∃ q, p[f.mData2 - 1]? = some q ∧
      (q = f.mData1 ∨ absDiff f.mData1 q < cfg.mMinChange) := by
  induction edges using pairs_induction with
  | h0 => intro start ch pv _ _ ev c p f h; simp [frameDecoder] at h
  | h1 a => intro start ch pv _ _ ev c p f h; simp [frameDecoder] at h
  | h2 e1 e2 rest ih =>
    intro start ch pv hpv hw ev c p f hmem hobs hin
    rw [frameDecoder_cons_cons] at hmem hw
    cases hd : decoderStep cfg rate start e1 e2 ch pv with
    | undefined => simp [hd] at hmem
    | syncGap c0 p0 =>
      simp only [hd, List.mem_cons] at hmem
      simp only [hd, traceEvents_cons, StepResult.events, List.nil_append] at hw
      rcases hmem with hmem | hmem
      · cases hmem
      · have hp0 : p0 = pv := (decoderStep_syncGap hd).2.1
        exact ih e2.sample c0 p0 (by rw [hp0]; exact hpv) hw ev c p f hmem hobs hin
    | pulse ev0 c0 p0 =>
      simp only [hd, List.mem_cons] at hmem
      simp only [hd, traceEvents_cons, StepResult.events, observations_append,
        List.mem_append] at hw
      obtain ⟨_, f0, _, hobs0, _⟩ := decoderStep_pulse_observation hd
      have hw0 : f0.mData1 < 2 ^ 53 := hw f0 (Or.inl (by rw [hobs0]; simp))
      obtain ⟨hp0, hdrift⟩ := decoderStep_drift hd hobs0 hw0 hpv
      rcases hmem with hmem | hmem
      · injection hmem with hev _ hp
        subst hev
        subst hp
        have hff : f0 = f := by
          rw [hobs0] at hobs
          simpa using hobs
        subst hff
        exact hdrift hin
      · exact ih e2.sample c0 p0 hp0 (fun g hg => hw g (Or.inr hg)) ev c p f hmem hobs hin

/-- Drift of the stored width in a run in which every observed width is below
`2 ^ 53`: after an in-range observation of width `w` the entry `q` of its
slot satisfies `q = w` or `|w - q| < mMinChange`. -/
theorem drift_of_exact_widths (cfg : CPPMAnalyzerSettings) (rate start : Nat) (edges : List Edge)
    (ev : List Event) (c : Nat) (p : List Nat) (f : Frame)
    (hw : ∀ g ∈ observations (traceEvents
        (frameDecoder cfg rate start 0 (List.replicate cfg.mMaxChan 0) edges)),
      g.mData1 < 2 ^ 53)
    (hr : StepResult.pulse ev c p ∈
      frameDecoder cfg rate start 0 (List.replicate cfg.mMaxChan 0) edges)
    (hobs : observations ev = [f]) (hin : f.isError = false) :
    ∃ q, p[f.mData2 - 1]? = some q ∧
      (q = f.mData1 ∨ absDiff f.mData1 q < cfg.mMinChange) ∧
      (cfg.mMinChange = 0 → q = f.mData1) ∧
      (0 < cfg.mMinChange → absDiff f.mData1 q ≤ cfg.mMinChange - 1) := by
  obtain ⟨q, hq, hdrift⟩ :=
    frameDecoder_drift cfg rate edges start 0 (List.replicate cfg.mMaxChan 0)
      (fun x hx => by rw [List.eq_of_mem_replicate hx]; norm_num) hw ev c p f hr hobs hin
  refine ⟨q, hq, hdrift, ?_, ?_⟩
  · intro h0
    rcases hdrift with h | h
    · exact h
    · omega
  · intro hpos
    rcases hdrift with h | h
    · rw [h]
      unfold absDiff
      simp
    · omega

/-! ## C11: the value a width is compared against -/

theorem lastReported_concat (s : Nat) (hist : List Frame) (f : Frame) :
    lastReported s (hist ++ [f]) =
      if reportedOn s f = true then f.mData1 else lastReported s hist := by
  unfold lastReported
  rw [List.filter_append]
  by_cases h : reportedOn s f = true
  · rw [if_pos h]
    simp [List.filter, h]
  · rw [if_neg h]
    simp [List.filter, h]

theorem tableAfter_cons (pv : List Nat) (r : StepResult) (t : List StepResult) :
    tableAfter pv (r :: t) = tableAfter r.prevs t := by
  unfold tableAfter
  cases t with
  | nil => rfl
  | cons y ys =>
    rw [List.getLast?_cons_cons]
    cases h : (y :: ys).getLast? with
    | none => simp at h
    | some z => rfl

theorem changeDetector_eq {cfg : CPPMAnalyzerSettings} {w s q : Nat} {pv : List Nat}
    (hs : 1 ≤ s) (hq : pv[s - 1]? = some q) :
    changeDetector cfg w s pv =
      if toDouble cfg.mMinChange ≤ toDouble (absDiff (toDouble w) q) ∧ q ≠ toDouble w then
        some { marker := some (if q < toDouble w then MarkerType.UpArrow
                               else MarkerType.DownArrow)
               mType := 1
               prevs := pv.set (s - 1) (toDouble w) }
      else some { marker := none, mType := 0, prevs := pv } := by
  unfold changeDetector
  rw [if_neg (by omega)]
  simp only [hq]

theorem tableRecords_pulse {cfg : CPPMAnalyzerSettings} {rate start : Nat} {e1 e2 : Edge}
    {ch : Nat} {pv : List Nat} {ev : List Event} {c : Nat} {p : List Nat} {hist : List Frame}
    (h : decoderStep cfg rate start e1 e2 ch pv = StepResult.pulse ev c p)
    (hinv : tableRecords pv hist) : tableRecords p (hist ++ observations ev) := by
  obtain ⟨width, _, _, hcase⟩ := decoderStep_pulse h
  rcases hcase with ⟨_, hev, _, hp⟩ | ⟨_, d, hd, hev, _, hp⟩
  · intro s hs hlen
    rw [hp] at hlen ⊢
    rw [hev, observations_overflowEvents, lastReported_concat, if_neg]
    · exact hinv s hs hlen
    · simp [reportedOn, Frame.isError, DISPLAY_AS_ERROR_FLAG]
  · intro s hs hlen
    have hrange := changeDetector_some hd
    rw [hev, observations_inRangeEvents, lastReported_concat]
    rcases changeDetector_cases hd with ⟨hty, hset⟩ | ⟨hty, _, hsame⟩
    · rw [hp, hset] at hlen ⊢
      rw [List.length_set] at hlen
      by_cases hsk : (ch + 1) % 256 = s
      · rw [if_pos (by simp [reportedOn, Frame.isError, hsk, hty]), ← hsk]
        exact List.getElem?_set_self (by omega)
      · rw [if_neg (by simp [reportedOn, hsk]), List.getElem?_set_ne (by omega)]
        exact hinv s hs hlen
    · rw [hp, hsame] at hlen ⊢
      rw [if_neg (by simp [reportedOn, hty])]
      exact hinv s hs hlen

theorem frameDecoder_tableRecords (cfg : CPPMAnalyzerSettings) (rate : Nat)
    (edges : List Edge) : ∀ (start ch : Nat) (pv : List Nat) (hist : List Frame),
    tableRecords pv hist → ∀ (pre : List StepResult) (r : StepResult) (post : List StepResult),
    frameDecoder cfg rate start ch pv edges = pre ++ r :: post →
    tableRecords (tableAfter pv pre) (hist ++ observations (traceEvents pre)) ∧
    ∃ s0 e1 e2 ch', r = decoderStep cfg rate s0 e1 e2 ch' (tableAfter pv pre) := by
  induction edges using pairs_induction with
  | h0 => intro start ch pv hist _ pre r post h; simp [frameDecoder] at h
  | h1 a => intro start ch pv hist _ pre r post h; simp [frameDecoder] at h
  | h2 e1 e2 rest ih =>
    intro start ch pv hist hinv pre r post h
    rw [frameDecoder_cons_cons] at h
    have hhead : tableRecords (tableAfter pv []) (hist ++ observations (traceEvents [])) := by
      simpa [tableAfter, traceEvents, observations] using hinv
    cases hd : decoderStep cfg rate start e1 e2 ch pv with
    | undefined =>
      simp only [hd] at h
      cases pre with
      | nil =>
        simp only [List.nil_append, List.cons.injEq] at h
        exact ⟨hhead, start, e1, e2, ch, by rw [← h.1]; exact hd.symm⟩
      | cons x pre' =>
        simp only [List.cons_append, List.cons.injEq] at h
        have := h.2
        simp at this
    | syncGap c0 p0 =>
      simp only [hd] at h
      cases pre with
      | nil =>
        simp only [List.nil_append, List.cons.injEq] at h
        exact ⟨hhead, start, e1, e2, ch, by rw [← h.1]; exact hd.symm⟩
      | cons x pre' =>
        simp only [List.cons_append, List.cons.injEq] at h
        obtain ⟨hx, ht⟩ := h
        have hp0 : p0 = pv := (decoderStep_syncGap hd).2.1
        have hinv0 : tableRecords p0 hist := by rw [hp0]; exact hinv
        obtain ⟨h1, h2⟩ := ih e2.sample c0 p0 hist hinv0 pre' r post ht
        rw [← hx, tableAfter_cons, traceEvents_cons]
        simp only [StepResult.prevs, StepResult.events, List.nil_append]
        exact ⟨h1, h2⟩
    | pulse ev0 c0 p0 =>
      simp only [hd] at h
      cases pre with
      | nil =>
        simp only [List.nil_append, List.cons.injEq] at h
        exact ⟨hhead, start, e1, e2, ch, by rw [← h.1]; exact hd.symm⟩
      | cons x pre' =>
        simp only [List.cons_append, List.cons.injEq] at h
        obtain ⟨hx, ht⟩ := h
        have hinv0 : tableRecords p0 (hist ++ observations ev0) := tableRecords_pulse hd hinv
        obtain ⟨h1, h2⟩ := ih e2.sample c0 p0 _ hinv0 pre' r post ht
        rw [← hx, tableAfter_cons, traceEvents_cons, observations_append]
        simp only [StepResult.prevs, StepResult.events]
        rw [← List.append_assoc]
        exact ⟨h1, h2⟩

/-- C11, as stated, fails: the table is updated only when a change is
reported.  With one channel and hysteresis 10 µs, the widths 1000, 1006, 1012
in three consecutive frames: the second observation (1006) is not reported
and leaves the entry at 1000, so the third observation (1012) is compared
against 1000 and reported as an increase, although the most recent previous
in-range observation on the slot has width 1006, only 6 µs away. -/
theorem comparison_base_last_observed_refuted :
    frameDecoder cfg1 1000000 0 0 [0] (synthEdges 0 hysteresisBody) =
      hysteresisBefore ++ [StepResult.pulse hysteresisThird 1 [1012]] ∧
    lastObserved 1 (observations (traceEvents hysteresisBefore)) = 1006 ∧
    tableAfter [0] hysteresisBefore = [1000] ∧
    observations hysteresisThird =
      [{ mData1 := 1012, mData2 := 1, mFlags := 0, mType := 1,
         mStartingSampleInclusive := 12406, mEndingSampleInclusive := 13018 }] ∧
    ¬ cfg1.mMinChange ≤ absDiff 1012 1006 := by
  decide

/-- C11, amended: in a run of the worker's decoder loop, for every in-range
(non-error) observation `f` on a slot `s`, the iteration that emits it runs on
the table left by the iterations before it, and the entry of `s` in that
table, against which the width of `f` is compared, is the width (converted to
`double`, which is exact below `2 ^ 53`) of the most recent previous in-range
observation on `s` for which a change was reported, or zero when no change
has been reported on `s` before: a change is reported for `f` iff its width
differs from that value by at least `mMinChange` and is not equal to it. -/
theorem comparison_base (cfg : CPPMAnalyzerSettings) (rate start : Nat) (edges : List Edge)
    (pre post : List StepResult) (ev : List Event) (c : Nat) (p : List Nat) (f : Frame)
    (htrace : frameDecoder cfg rate start 0 (List.replicate cfg.mMaxChan 0) edges =
      pre ++ StepResult.pulse ev c p :: post)
    (hobs : observations ev = [f]) (hin : f.isError = false) :
    ∃ base, base = toDouble (lastReported f.mData2 (observations (traceEvents pre))) ∧
      (lastReported f.mData2 (observations (traceEvents pre)) < 2 ^ 53 →
        base = lastReported f.mData2 (observations (traceEvents pre))) ∧
      (tableAfter (List.replicate cfg.mMaxChan 0) pre)[f.mData2 - 1]? = some base ∧
      (∃ s0 e1 e2 ch, decoderStep cfg rate s0 e1 e2 ch
          (tableAfter (List.replicate cfg.mMaxChan 0) pre) = StepResult.pulse ev c p) ∧
      (f.mType = 1 ↔
        toDouble cfg.mMinChange ≤ toDouble (absDiff (toDouble f.mData1) base) ∧
          base ≠ toDouble f.mData1) := by
  have hinit : tableRecords (List.replicate cfg.mMaxChan 0) [] := by
    intro s hs hlen
    rw [List.length_replicate] at hlen
    rw [List.getElem?_replicate_of_lt (by omega)]
    rfl
  obtain ⟨hrec, s0, e1, e2, ch, hstep⟩ :=
    frameDecoder_tableRecords cfg rate edges start 0 (List.replicate cfg.mMaxChan 0) [] hinit
      pre _ post htrace
  simp only [List.nil_append] at hrec
  obtain ⟨width, _, _, hcase⟩ := decoderStep_pulse hstep.symm
  rcases hcase with ⟨_, hev, _, _⟩ | ⟨_, d, hd, hev, _, _⟩
  · exfalso
    rw [hev, observations_overflowEvents] at hobs
    injection hobs with hf _
    subst hf
    simp [Frame.isError, DISPLAY_AS_ERROR_FLAG] at hin
  · rw [hev, observations_inRangeEvents] at hobs
    injection hobs with hf _
    subst hf
    simp only
    have hrange := changeDetector_some hd
    have hbase := hrec ((ch + 1) % 256) hrange.1 hrange.2
    refine ⟨_, rfl, fun hlt => toDouble_of_lt hlt, hbase, ⟨s0, e1, e2, ch, hstep.symm⟩, ?_⟩
    rw [changeDetector_eq hrange.1 hbase] at hd
    by_cases hc : toDouble cfg.mMinChange ≤ toDouble (absDiff (toDouble width)
        (toDouble (lastReported ((ch + 1) % 256) (observations (traceEvents pre))))) ∧
        toDouble (lastReported ((ch + 1) % 256) (observations (traceEvents pre))) ≠
          toDouble width
    · rw [if_pos hc] at hd
      injection hd with hd
      subst hd
      exact ⟨fun _ => hc, fun _ => rfl⟩
    · rw [if_neg hc] at hd
      injection hd with hd
      subst hd
      constructor
      · intro h
        cases h
      · intro h
        exact absurd h hc

/-- C11, witness: in the run on the widths 1000, 1006, 1012 of one channel
(hysteresis 10 µs), the third observation is compared against 1000, the width
of the last observation on the slot that was reported (the first), and is
reported since 1012 - 1000 ≥ 10. -/
theorem comparison_base_witness :
    lastReported 1 (observations (traceEvents hysteresisBefore)) = 1000 ∧
    ∃ base, base = toDouble (lastReported 1 (observations (traceEvents hysteresisBefore))) ∧
      (lastReported 1 (observations (traceEvents hysteresisBefore)) < 2 ^ 53 →
        base = lastReported 1 (observations (traceEvents hysteresisBefore))) ∧
      (tableAfter (List.replicate cfg1.mMaxChan 0) hysteresisBefore)[1 - 1]? = some base ∧
      (∃ s0 e1 e2 ch, decoderStep cfg1 1000000 s0 e1 e2 ch
          (tableAfter (List.replicate cfg1.mMaxChan 0) hysteresisBefore) =
        StepResult.pulse hysteresisThird 1 [1012]) ∧
      ((1 : Nat) = 1 ↔
        toDouble cfg1.mMinChange ≤ toDouble (absDiff (toDouble 1012) base) ∧
          base ≠ toDouble 1012) :=
  ⟨by decide,
   comparison_base cfg1 1000000 0 (synthEdges 0 hysteresisBody) hysteresisBefore []
     hysteresisThird 1 [1012]
     { mData1 := 1012, mData2 := 1, mFlags := 0, mType := 1,
       mStartingSampleInclusive := 12406, mEndingSampleInclusive := 13018 }
     (by decide) (by decide) (by decide)⟩

/-! ## C2: the sync acquirer on the first confirming edge -/

theorem syncAcquire_first (cfg : CPPMAnalyzerSettings) (rate : Nat) (hrate : 0 < rate)
    (e : Edge) (post : List Edge) (pre : List Edge) : ∀ (cur : Nat),
    (cur :: (pre ++ e :: post).map Edge.sample).Pairwise (· < ·) →
    (∀ x ∈ pre ++ e :: post, x.sample < 2 ^ 64) →
    (∀ x ∈ List.zip (cur :: (pre ++ [e]).map Edge.sample) (pre ++ [e]),
      (x.2.sample - x.1) * 1000000 < 2 ^ 64) →
    (∀ x ∈ List.zip (cur :: pre.map Edge.sample) pre, syncConfirmed cfg rate x.1 x.2 = false) →
    syncConfirmed cfg rate (positionAfter cur pre) e = true →
    syncAcquire cfg rate cur (pre ++ e :: post) = AcquireResult.locked e.sample e.state post ∧
    syncAcquire cfg rate cur pre = AcquireResult.blocked := by
  induction pre with
  | nil =>
    intro cur hinc hb hfit _ he
    refine ⟨?_, rfl⟩
    have hlt : cur < e.sample := (List.pairwise_cons.1 hinc).1 e.sample (by simp)
    have hsub : subU64 e.sample cur = e.sample - cur :=
      subU64_of_le (Nat.le_of_lt hlt) (hb e (by simp))
    have hmod : (e.sample - cur) * 1000000 % 2 ^ 64 = (e.sample - cur) * 1000000 :=
      Nat.mod_eq_of_lt (hfit (cur, e) (by simp))
    simp only [positionAfter, List.getLast?_nil, syncConfirmed, pulseIntervalUs,
      Bool.and_eq_true, decide_eq_true_eq] at he
    simp only [List.nil_append, syncAcquire, hsub, SamplesToUs_pos hrate, hmod]
    rw [if_neg (Nat.not_lt.2 he.1.2), if_pos he.2]
  | cons x xs ih =>
    intro cur hinc hb hfit hpre he
    have hlt : cur < x.sample := (List.pairwise_cons.1 hinc).1 x.sample (by simp)
    have hsub : subU64 x.sample cur = x.sample - cur :=
      subU64_of_le (Nat.le_of_lt hlt) (hb x (by simp))
    have hmod : (x.sample - cur) * 1000000 % 2 ^ 64 = (x.sample - cur) * 1000000 :=
      Nat.mod_eq_of_lt (hfit (cur, x) (by simp))
    have hx := hpre (cur, x) (by simp)
    simp only [syncConfirmed, pulseIntervalUs, Bool.and_eq_false_iff,
      decide_eq_false_iff_not] at hx
    have hinc' : (x.sample :: (xs ++ e :: post).map Edge.sample).Pairwise (· < ·) := by
      simpa using (List.pairwise_cons.1 hinc).2
    have hb' : ∀ y ∈ xs ++ e :: post, y.sample < 2 ^ 64 :=
      fun y hy => hb y (by simpa using Or.inr (by simpa using hy))
    have hfit' : ∀ y ∈ List.zip (x.sample :: (xs ++ [e]).map Edge.sample) (xs ++ [e]),
        (y.2.sample - y.1) * 1000000 < 2 ^ 64 :=
      fun y hy => hfit y (by simp only [List.cons_append, List.map_cons, List.zip_cons_cons]
                             exact List.mem_cons_of_mem _ hy)
    have hpre' : ∀ y ∈ List.zip (x.sample :: xs.map Edge.sample) xs,
        syncConfirmed cfg rate y.1 y.2 = false :=
      fun y hy => hpre y (by simp only [List.map_cons, List.zip_cons_cons]
                             exact List.mem_cons_of_mem _ hy)
    rw [positionAfter_cons] at he
    obtain ⟨ih1, ih2⟩ := ih x.sample hinc' hb' hfit' hpre' he
    simp only [List.cons_append, syncAcquire, hsub, SamplesToUs_pos hrate, hmod]
    by_cases hshort : (x.sample - cur) * 1000000 / rate < cfg.mSyncTime
    · rw [if_pos hshort, if_pos hshort]
      exact ⟨ih1, ih2⟩
    · rw [if_neg hshort, if_neg hshort]
      have hdir : ¬ CorrectSyncDir cfg x.state = true := by
        rcases hx with hx | hx
        · rcases hx with hx | hx
          · exact absurd hrate hx
          · exact absurd (Nat.not_lt.1 hshort) hx
        · simp [hx]
      rw [if_neg hdir, if_neg hdir]
      exact ⟨ih1, ih2⟩

/-- C2, as stated, fails when an interval is so long that `samples * 1000000`
does not fit in 64 bits.  On `wrapStream` at 1 MHz with the polarity "accept a
low level" and the threshold 3000 µs, the first edge ends an interval of
18446744073710 µs in a low level, so it is the first edge that satisfies (i)
and (ii); but the code computes the interval as 0 µs, consumes that edge
without locking and acquires lock two edges later, at sample
18446744078810. -/
theorem sync_acquirer_long_interval_refuted :
    ((0 :: wrapStream.map Edge.sample).Pairwise (· < ·) ∧
      (∀ x ∈ wrapStream, x.sample < 2 ^ 64) ∧
      alternating BitState.BIT_HIGH wrapStream = true) ∧
    (pulseIntervalUs 1000000 0 18446744073710 = 18446744073710 ∧
      syncConfirmed cfgLow 1000000 0
        { sample := 18446744073710, state := BitState.BIT_LOW } = true) ∧
    SamplesToUs 1000000 (subU64 18446744073710 0) = some 0 ∧
    syncAcquire cfgLow 1000000 0 wrapStream =
      AcquireResult.locked 18446744078810 BitState.BIT_LOW [] := by
  decide

/-- C2, amended: for every edge stream `pre ++ e :: post` with strictly
increasing 64-bit positions (starting after the initial position `cur`) in
which every interval up to `e` is short enough for `samples * 1000000` to fit
in 64 bits and `e` is the first edge such that (i) the pulse interval in
microseconds, `(samples × 1,000,000) / rate`, from the position before it to
it is at least `mSyncTime` and (ii) the level after it satisfies the polarity:
the acquirer returns positioned on `e` with `post` still to come, it does not
acquire lock on the earlier edges (run on them alone it consumes them all and
is left waiting), and the worker thread emits exactly one lock marker, at the
position of `e`, as its first event. -/
theorem sync_acquirer_first_sync (cfg : CPPMAnalyzerSettings) (rate cur : Nat)
    (pre : List Edge) (e : Edge) (post : List Edge)
    (hinc : (cur :: (pre ++ e :: post).map Edge.sample).Pairwise (· < ·))
    (hU64 : ∀ x ∈ pre ++ e :: post, x.sample < 2 ^ 64)
    (hfit : ∀ x ∈ List.zip (cur :: (pre ++ [e]).map Edge.sample) (pre ++ [e]),
      (x.2.sample - x.1) * 1000000 < 2 ^ 64)
    (hpre : ∀ x ∈ List.zip (cur :: pre.map Edge.sample) pre,
      syncConfirmed cfg rate x.1 x.2 = false)
    (he : syncConfirmed cfg rate (positionAfter cur pre) e = true) :
    syncAcquire cfg rate cur (pre ++ e :: post) = AcquireResult.locked e.sample e.state post ∧
    syncAcquire cfg rate cur pre = AcquireResult.blocked ∧
    lockMarkers (WorkerThread cfg rate cur (pre ++ e :: post)) = [e.sample] ∧
    (WorkerThread cfg rate cur (pre ++ e :: post)).head? =
      some (Event.AddMarker e.sample MarkerType.Dot) := by
  have hrate : 0 < rate := by
    simp only [syncConfirmed, Bool.and_eq_true, decide_eq_true_eq] at he
    exact he.1.1
  obtain ⟨h1, h2⟩ := syncAcquire_first cfg rate hrate e post pre cur hinc hU64 hfit hpre he
  refine ⟨h1, h2, ?_, ?_⟩
  · unfold WorkerThread
    simp only [h1, lockMarkers, lockMarkers_frameDecoder]
  · unfold WorkerThread
    simp only [h1, List.head?_cons]

/-- C2, witness (polarity rejection): with the polarity "accept a low level"
and the threshold 3000 µs at 1 MHz, the gap of 5000 µs from sample 100 to
sample 5100 ends in a high level and does not acquire sync; scanning
continues to the gap from 6000 to 11000, which ends in a low level: lock is
acquired there, with one lock marker at sample 11000. -/
theorem sync_acquirer_first_sync_witness :
    (pulseIntervalUs 1000000 100 5100 = 5000 ∧
      CorrectSyncDir cfgLow BitState.BIT_HIGH = false) ∧
    syncAcquire cfgLow 1000000 0
        (rejectedGap ++ { sample := 11000, state := BitState.BIT_LOW } ::
          [{ sample := 11400, state := BitState.BIT_HIGH },
           { sample := 12000, state := BitState.BIT_LOW }]) =
      AcquireResult.locked
        (Edge.sample { sample := 11000, state := BitState.BIT_LOW })
        (Edge.state { sample := 11000, state := BitState.BIT_LOW })
        [{ sample := 11400, state := BitState.BIT_HIGH },
         { sample := 12000, state := BitState.BIT_LOW }] ∧
    syncAcquire cfgLow 1000000 0 rejectedGap = AcquireResult.blocked ∧
    lockMarkers (WorkerThread cfgLow 1000000 0
        (rejectedGap ++ { sample := 11000, state := BitState.BIT_LOW } ::
          [{ sample := 11400, state := BitState.BIT_HIGH },
           { sample := 12000, state := BitState.BIT_LOW }])) =
      [Edge.sample { sample := 11000, state := BitState.BIT_LOW }] ∧
    (WorkerThread cfgLow 1000000 0
        (rejectedGap ++ { sample := 11000, state := BitState.BIT_LOW } ::
          [{ sample := 11400, state := BitState.BIT_HIGH },
           { sample := 12000, state := BitState.BIT_LOW }])).head? =
      some (Event.AddMarker (Edge.sample { sample := 11000, state := BitState.BIT_LOW })
        MarkerType.Dot) :=
  ⟨by decide,
   sync_acquirer_first_sync cfgLow 1000000 0 rejectedGap
     { sample := 11000, state := BitState.BIT_LOW }
     [{ sample := 11400, state := BitState.BIT_HIGH },
      { sample := 12000, state := BitState.BIT_LOW }]
     (by decide) (by decide) (by decide) (by decide) (by decide)⟩

/-! ## The state on which an iteration runs -/

theorem counterAfter_cons (ch : Nat) (r : StepResult) (t : List StepResult) :
    counterAfter ch (r :: t) = counterAfter r.channel t := by
  unfold counterAfter
  cases t with
  | nil => rfl
  | cons y ys =>
    rw [List.getLast?_cons_cons]
    cases h : (y :: ys).getLast? with
    | none => simp at h
    | some z => rfl

theorem counterAfter_concat (ch : Nat) (t : List StepResult) (r : StepResult) :
    counterAfter ch (t ++ [r]) = r.channel := by
  unfold counterAfter
  rw [List.getLast?_concat]

/-- Every iteration of a run is the loop body applied to the slot counter and
the table left by the iterations before it. -/
theorem frameDecoder_split (cfg : CPPMAnalyzerSettings) (rate : Nat) (edges : List Edge) :
    ∀ (start ch : Nat) (pv : List Nat) (pre : List StepResult) (r : StepResult)
      (post : List StepResult),
    frameDecoder cfg rate start ch pv edges = pre ++ r :: post →
    ∃ s e1 e2, r = decoderStep cfg rate s e1 e2 (counterAfter ch pre) (tableAfter pv pre) := by
  induction edges using pairs_induction with
  | h0 => intro start ch pv pre r post h; simp [frameDecoder] at h
  | h1 a => intro start ch pv pre r post h; simp [frameDecoder] at h
  | h2 e1 e2 rest ih =>
    intro start ch pv pre r post h
    rw [frameDecoder_cons_cons] at h
    cases hd : decoderStep cfg rate start e1 e2 ch pv with
    | undefined =>
      simp only [hd] at h
      cases pre with
      | nil =>
        simp only [List.nil_append, List.cons.injEq] at h
        exact ⟨start, e1, e2, by rw [← h.1]; exact hd.symm⟩
      | cons x pre' =>
        simp only [List.cons_append, List.cons.injEq] at h
        have := h.2
        simp at this
    | syncGap c0 p0 =>
      simp only [hd] at h
      cases pre with
      | nil =>
        simp only [List.nil_append, List.cons.injEq] at h
        exact ⟨start, e1, e2, by rw [← h.1]; exact hd.symm⟩
      | cons x pre' =>
        simp only [List.cons_append, List.cons.injEq] at h
        obtain ⟨hx, ht⟩ := h
        obtain ⟨s, a, b, hr⟩ := ih e2.sample c0 p0 pre' r post ht
        rw [← hx, tableAfter_cons, counterAfter_cons]
        exact ⟨s, a, b, hr⟩
    | pulse ev0 c0 p0 =>
      simp only [hd] at h
      cases pre with
      | nil =>
        simp only [List.nil_append, List.cons.injEq] at h
        exact ⟨start, e1, e2, by rw [← h.1]; exact hd.symm⟩
      | cons x pre' =>
        simp only [List.cons_append, List.cons.injEq] at h
        obtain ⟨hx, ht⟩ := h
        obtain ⟨s, a, b, hr⟩ := ih e2.sample c0 p0 pre' r post ht
        rw [← hx, tableAfter_cons, counterAfter_cons]
        exact ⟨s, a, b, hr⟩

theorem rate_pos_of_SamplesToUs {rate d w : Nat} (h : SamplesToUs rate d = some w) :
    0 < rate := by
  unfold SamplesToUs at h
  by_cases h0 : rate = 0
  · rw [if_pos h0] at h
    cases h
  · omega

/-- With at most 254 channels, an iteration of the worker's decoder loop is
undefined only at a zero sample rate. -/
theorem frameDecoder_defined (cfg : CPPMAnalyzerSettings) (rate start : Nat)
    (edges : List Edge) (hmax : cfg.mMaxChan ≤ 254) (hrate : 0 < rate) :
    StepResult.undefined ∉
      frameDecoder cfg rate start 0 (List.replicate cfg.mMaxChan 0) edges := by
  intro hmem
  obtain ⟨pre, e1, e2, rest, ch, pv, _, _, ⟨hch, hlen⟩, hstep⟩ :=
    frameDecoder_bounded_steps cfg rate edges start _ hmem
  rcases decoderStep_undefined hstep.symm with h0 | ⟨hin, width, hnone⟩
  · omega
  · have hmod : (ch + 1) % 256 = ch + 1 := Nat.mod_eq_of_lt (by omega)
    rw [hmod] at hin hnone
    obtain ⟨d, hd, _⟩ := changeDetector_defined cfg width (Nat.le_add_left 1 ch)
      (by omega : ch + 1 ≤ pv.length)
    rw [hd] at hnone
    cases hnone

/-! ## C4: progression of the channel slot along a run -/

set_option maxRecDepth 1000000 in
/-- C4, as stated, fails when the 8-bit slot counter can wrap.  With 255
channels and a frame of 256 pulses (2 samples each, below the threshold 3),
the 255th observation has slot 255 = `mMaxChan` and is not error-flagged; the
next iteration is not a sync gap, but it does not yield an error-flagged
observation with slot 1: the counter wraps to 0, the overflow test
`0 > mMaxChan` fails and the table is read at index -1, which is undefined. -/
theorem slot_progression_wrap_refuted :
    (frameDecoder cfg255 1000000 0 0 (List.replicate 255 0) (synthEdges 0 body256)).length
      = 256 ∧
    (frameDecoder cfg255 1000000 0 0 (List.replicate 255 0) (synthEdges 0 body256)).getLast?
      = some StepResult.undefined ∧
    ((observations (traceEvents (frameDecoder cfg255 1000000 0 0 (List.replicate 255 0)
        (synthEdges 0 body256)))).getLast?.map (fun f => (f.mData2, f.isError))
      = some (255, false) ∧ cfg255.mMaxChan = 255) ∧
    (SamplesToUs 1000000 (subU64 512 510) = some 2 ∧ ¬ cfg255.mSyncTime ≤ 2 ∧
      (255 + 1) % 256 = 0 ∧ ¬ cfg255.mMaxChan < (255 + 1) % 256 ∧
      decoderStep cfg255 1000000 510 { sample := 511, state := BitState.BIT_HIGH }
        { sample := 512, state := BitState.BIT_LOW } 255 (List.replicate 255 0) =
      StepResult.undefined) := by
  decide

/-- C4, amended: for every configuration with `mMaxChan ≤ 254`, in every run
of the worker's decoder loop, for every emitted observation `fa` and the next
iteration `b` that is not a sync gap (the iterations between them, if any,
being sync gaps): `b` emits an observation `fb`; if no sync gap lies between
them and `fa` is not error-flagged, then the slot of `fb` is the slot of `fa`
plus 1, except that when the slot of `fa` equals `mMaxChan` the observation
`fb` is error-flagged and carries slot 1; if a sync gap lies between them, or
`fa` is error-flagged, `fb` has slot 1. -/
theorem slot_progression (cfg : CPPMAnalyzerSettings) (rate start : Nat) (edges : List Edge)
    (pre gaps post : List StepResult) (eva : List Event) (ca : Nat) (pa : List Nat)
    (b : StepResult) (fa : Frame) (hmax : cfg.mMaxChan ≤ 254)
    (htrace : frameDecoder cfg rate start 0 (List.replicate cfg.mMaxChan 0) edges =
      pre ++ StepResult.pulse eva ca pa :: (gaps ++ b :: post))
    (hgaps : ∀ g ∈ gaps, ∃ c p, g = StepResult.syncGap c p)
    (hb : ∀ c p, b ≠ StepResult.syncGap c p)
    (hfa : observations eva = [fa]) :
    ∃ evb cb pb fb, b = StepResult.pulse evb cb pb ∧ observations evb = [fb] ∧
      (gaps = [] → fa.isError = false →
        (fa.mData2 ≠ cfg.mMaxChan → fb.mData2 = fa.mData2 + 1) ∧
        (fa.mData2 = cfg.mMaxChan → fb.isError = true ∧ fb.mData2 = 1)) ∧
      (gaps ≠ [] ∨ fa.isError = true → fb.mData2 = 1) := by
  have hamem : StepResult.pulse eva ca pa ∈
      frameDecoder cfg rate start 0 (List.replicate cfg.mMaxChan 0) edges := by
    rw [htrace]
    simp
  have hbmem : b ∈ frameDecoder cfg rate start 0 (List.replicate cfg.mMaxChan 0) edges := by
    rw [htrace]
    simp
  obtain ⟨sa, a1, a2, cha, pva, hastep⟩ :=
    mem_frameDecoder edges start 0 (List.replicate cfg.mMaxChan 0) hamem
  obtain ⟨_, hwa, _⟩ := decoderStep_pulse hastep.symm
  have hrate : 0 < rate := rate_pos_of_SamplesToUs hwa
  have hdef := frameDecoder_defined cfg rate start edges hmax hrate
  cases b with
  | undefined => exact absurd hbmem hdef
  | syncGap c p => exact absurd rfl (hb c p)
  | pulse evb cb pb =>
    obtain ⟨sb, b1, b2, chb, pvb, hbstep⟩ :=
      mem_frameDecoder edges start 0 (List.replicate cfg.mMaxChan 0) hbmem
    obtain ⟨_, fb, _, hobsb, _⟩ := decoderStep_pulse_observation hbstep.symm
    exact ⟨evb, cb, pb, fb, rfl, hobsb,
      slots_of_consecutive_pulses cfg rate start 0 (List.replicate cfg.mMaxChan 0) edges
        pre gaps post eva evb ca cb pa pb fa fb htrace hgaps hfa hobsb⟩

/-- C4, witness: with two channels, the frame body `[1000, 1500, 2000]`
decodes to three consecutive observations; the second has slot 2 =
`mMaxChan` and is clean, so the third is error-flagged and carries slot 1. -/
theorem slot_progression_witness :
    frameDecoder cfg2 1000000 5100 0 (List.replicate cfg2.mMaxChan 0) (synthEdges 5100 body3) =
      [StepResult.pulse
         (inRangeEvents 1000 1 5500 6100
           { marker := some MarkerType.UpArrow, mType := 1, prevs := [1000, 0] }) 1 [1000, 0]] ++
      StepResult.pulse
         (inRangeEvents 1500 2 6500 7600
           { marker := some MarkerType.UpArrow, mType := 1, prevs := [1000, 1500] })
         2 [1000, 1500] ::
      ([] ++ StepResult.pulse (overflowEvents 2000 8000 9600) 0 [1000, 1500] :: []) ∧
    ∃ evb cb pb fb,
      StepResult.pulse (overflowEvents 2000 8000 9600) 0 [1000, 1500] =
        StepResult.pulse evb cb pb ∧
      observations evb = [fb] ∧
      (([] : List StepResult) = [] → false = false →
        (2 ≠ cfg2.mMaxChan → fb.mData2 = 2 + 1) ∧
        (2 = cfg2.mMaxChan → fb.isError = true ∧ fb.mData2 = 1)) ∧
      (([] : List StepResult) ≠ [] ∨ false = true → fb.mData2 = 1) :=
  ⟨by decide,
   slot_progression cfg2 1000000 5100 (synthEdges 5100 body3)
     [StepResult.pulse
        (inRangeEvents 1000 1 5500 6100
          { marker := some MarkerType.UpArrow, mType := 1, prevs := [1000, 0] }) 1 [1000, 0]]
     [] []
     (inRangeEvents 1500 2 6500 7600
       { marker := some MarkerType.UpArrow, mType := 1, prevs := [1000, 1500] })
     2 [1000, 1500]
     (StepResult.pulse (overflowEvents 2000 8000 9600) 0 [1000, 1500])
     { mData1 := 1500, mData2 := 2, mFlags := 0, mType := 1,
       mStartingSampleInclusive := 6500, mEndingSampleInclusive := 7600 }
     (by decide) (by decide) (by simp) (by simp) (by decide)⟩

/-! ## C6: channel overflow -/

/-- An iteration that leaves a non-zero slot counter is an in-range pulse: it
has incremented the counter it started from. -/
theorem channel_of_inRange_step {cfg : CPPMAnalyzerSettings} {rate s : Nat} {e1 e2 : Edge}
    {k : Nat} {pv : List Nat} {y : StepResult}
    (h : y = decoderStep cfg rate s e1 e2 k pv) (hy : y.channel ≠ 0) (hk : k ≤ 254) :
    y.channel = k + 1 ∧ k + 1 ≤ cfg.mMaxChan := by
  have hmod : (k + 1) % 256 = k + 1 := Nat.mod_eq_of_lt (by omega)
  cases y with
  | undefined => exact absurd rfl hy
  | syncGap c p =>
    have hc := (decoderStep_syncGap h.symm).1
    exact absurd hc hy
  | pulse ev c p =>
    obtain ⟨_, _, _, _, _, _, _, hcase⟩ := decoderStep_pulse_observation h.symm
    rcases hcase with ⟨_, _, _, _, hc, _⟩ | ⟨hin, _, _, hc, _⟩
    · exact absurd hc hy
    · rw [hmod] at hin hc
      simp only [StepResult.channel]
      omega

/-- After a reset, the slot counter counts the in-range pulses. -/
theorem counter_in_block (cfg : CPPMAnalyzerSettings) (rate start : Nat) (edges : List Edge)
    (init : List Nat) (pre : List StepResult) (hmax : cfg.mMaxChan ≤ 254)
    (hreset : counterAfter 0 pre = 0) (block : List StepResult) :
    ∀ rest : List StepResult,
    frameDecoder cfg rate start 0 init edges = pre ++ (block ++ rest) →
    (∀ x ∈ block, x.channel ≠ 0) →
    counterAfter 0 (pre ++ block) = block.length ∧ block.length ≤ cfg.mMaxChan := by
  induction block using List.reverseRecOn with
  | nil =>
    intro rest _ _
    rw [List.append_nil, hreset]
    exact ⟨rfl, Nat.zero_le _⟩
  | append_singleton bl y ih =>
    intro rest htrace hblock
    have htrace' : frameDecoder cfg rate start 0 init edges = pre ++ (bl ++ (y :: rest)) := by
      rw [htrace]
      simp
    obtain ⟨hcount, hle⟩ := ih (y :: rest) htrace'
      (fun x hx => hblock x (List.mem_append_left _ hx))
    have hsplit : frameDecoder cfg rate start 0 init edges = (pre ++ bl) ++ y :: rest := by
      rw [htrace']
      simp
    obtain ⟨s, e1, e2, hy⟩ := frameDecoder_split cfg rate edges start 0 init _ y rest hsplit
    rw [hcount] at hy
    obtain ⟨hch, hbound⟩ := channel_of_inRange_step hy
      (hblock y (List.mem_append_right _ (List.mem_singleton.2 rfl))) (by omega)
    rw [← List.append_assoc, counterAfter_concat, hch, List.length_append]
    exact ⟨rfl, hbound⟩

set_option maxRecDepth 1000000 in
/-- C6, as stated, fails when the 8-bit slot counter can wrap.  With 255
channels, the 256th pulse after lock is the (`mMaxChan` + 1)-th pulse since
the last reset, but no observation of the run is error-flagged: 255
observations are emitted, none flagged, and on the 256th pulse the incremented
counter is 0, which does not exceed `mMaxChan`, so the overflow branch is not
taken (the table is read at index -1 instead, which is undefined). -/
theorem overflow_policy_wrap_refuted :
    body256.length = cfg255.mMaxChan + 1 ∧
    ((observations (traceEvents (frameDecoder cfg255 1000000 0 0 (List.replicate 255 0)
        (synthEdges 0 body256)))).map Frame.isError = List.replicate 255 false) ∧
    StepResult.undefined ∈
      frameDecoder cfg255 1000000 0 0 (List.replicate 255 0) (synthEdges 0 body256) ∧
    (255 + 1) % 256 = 0 ∧ ¬ cfg255.mMaxChan < (255 + 1) % 256 := by
  decide

/-- C6, amended: for every configuration with `mMaxChan ≤ 254`, in every run
of the worker's decoder loop, let `block` be the iterations since the last
reset of the slot counter (the start of the loop, a sync gap or an overflow),
none of which resets the counter, and let the next iteration emit the
observation `fb`, so that its pulse is the (`block.length` + 1)-th since the
reset.  Then `fb` is error-flagged exactly when the counter incremented for
this pulse, `block.length + 1`, exceeds `mMaxChan`, that is exactly when the
pulse is the (`mMaxChan` + 1)-th since the reset; otherwise its slot is
`block.length + 1`.  An error-flagged observation carries slot 1 and frame
type 0 (no change), exactly one marker is emitted for it, the error marker at
`end - (end - high)/2` (computed in `U64`; the plain value when
`high ≤ end < 2 ^ 64`), the slot counter is reset to 0 and the table is left
as it was, and whatever iteration emits next from that state emits a frame
with slot 1. -/
theorem overflow_policy (cfg : CPPMAnalyzerSettings) (rate start : Nat) (edges : List Edge)
    (pre block post : List StepResult) (evb : List Event) (cb : Nat) (pb : List Nat)
    (fb : Frame) (hmax : cfg.mMaxChan ≤ 254)
    (htrace : frameDecoder cfg rate start 0 (List.replicate cfg.mMaxChan 0) edges =
      pre ++ (block ++ StepResult.pulse evb cb pb :: post))
    (hreset : counterAfter 0 pre = 0)
    (hblock : ∀ x ∈ block, x.channel ≠ 0)
    (hfb : observations evb = [fb]) :
    block.length ≤ cfg.mMaxChan ∧
    (fb.isError = true ↔ cfg.mMaxChan < block.length + 1) ∧
    (fb.isError = true ↔ block.length = cfg.mMaxChan) ∧
    (fb.isError = false → fb.mData2 = block.length + 1) ∧
    (fb.isError = true →
      fb.mData2 = 1 ∧ fb.mType = 0 ∧
      markers evb =
        [(subU64 fb.mEndingSampleInclusive
            (subU64 fb.mEndingSampleInclusive fb.mStartingSampleInclusive / 2),
          MarkerType.ErrorX)] ∧
      (fb.mStartingSampleInclusive ≤ fb.mEndingSampleInclusive →
        fb.mEndingSampleInclusive < 2 ^ 64 →
        markers evb =
          [(fb.mEndingSampleInclusive -
              (fb.mEndingSampleInclusive - fb.mStartingSampleInclusive) / 2,
            MarkerType.ErrorX)]) ∧
      cb = 0 ∧ pb = tableAfter (List.replicate cfg.mMaxChan 0) (pre ++ block) ∧
      ∀ s e1 e2 ev c p,
        decoderStep cfg rate s e1 e2 cb pb = StepResult.pulse ev c p →
        ∃ g, observations ev = [g] ∧ g.mData2 = 1) := by
  obtain ⟨hcount, hle⟩ := counter_in_block cfg rate start edges _ pre hmax hreset block _
    htrace hblock
  have hsplit : frameDecoder cfg rate start 0 (List.replicate cfg.mMaxChan 0) edges =
      (pre ++ block) ++ StepResult.pulse evb cb pb :: post := by
    rw [htrace]
    simp
  obtain ⟨s, e1, e2, hstep⟩ := frameDecoder_split cfg rate edges start 0 _ _ _ post hsplit
  rw [hcount] at hstep
  have hmod : (block.length + 1) % 256 = block.length + 1 := Nat.mod_eq_of_lt (by omega)
  obtain ⟨_, f, _, hobs, _, hfs, hfe, hcase⟩ := decoderStep_pulse_observation hstep.symm
  have hff : f = fb := by
    rw [hobs] at hfb
    simpa using hfb
  subst hff
  rw [hmod] at hcase
  refine ⟨hle, ?_, ?_, ?_, ?_⟩
  · rcases hcase with ⟨hov, herr, _⟩ | ⟨hin, herr, _⟩
    · exact ⟨fun _ => hov, fun _ => herr⟩
    · constructor
      · intro he
        rw [herr] at he
        cases he
      · intro hov
        exact absurd hov hin
  · rcases hcase with ⟨hov, herr, _⟩ | ⟨hin, herr, _⟩
    · exact ⟨fun _ => (by omega), fun _ => herr⟩
    · constructor
      · intro he
        rw [herr] at he
        cases he
      · intro heq
        exact absurd (by omega) hin
  · intro hne
    rcases hcase with ⟨_, herr, _⟩ | ⟨_, _, hslot, _⟩
    · rw [herr] at hne
      cases hne
    · exact hslot
  · intro he
    rcases hcase with ⟨_, _, hslot, htype, hc, hp, hmk⟩ | ⟨_, herr, _⟩
    · refine ⟨hslot, htype, ?_, ?_, hc, hp, ?_⟩
      · rw [hmk, hfs, hfe]
        rfl
      · intro hle' hlt'
        simp only [hfs, hfe] at hle' hlt' ⊢
        rw [hmk]
        unfold midSample
        rw [subU64_of_le hle' hlt',
          subU64_of_le (Nat.le_trans (Nat.div_le_self _ _) (Nat.sub_le _ _)) hlt']
      · intro s' e1' e2' ev' c' p' h'
        obtain ⟨_, g, _, hobs', _, _, _, hcase'⟩ := decoderStep_pulse_observation h'
        refine ⟨g, hobs', ?_⟩
        rcases hcase' with ⟨_, _, hg, _⟩ | ⟨_, _, hg, _⟩
        · exact hg
        · rw [hg, hc]
    · rw [herr] at he
      cases he

/-- C6, witness: at 1 MHz with `mMaxChan = 2`, the stream sync + `[1000, 1500,
2000]`, sync, `[1000, 1500, 2000]` yields slots 1 and 2 clean, the third
pulse flagged as error with slot 1, and the frame after the next sync gap
starts again at slot 1; in the decoder run from the lock point the third
pulse follows a block of two in-range pulses. -/
theorem overflow_policy_witness :
    (observations (WorkerThread cfg2 1000000 0 stream3twice)).map
        (fun f => (f.mData2, f.mData1, f.isError)) =
      [(1, 1000, false), (2, 1500, false), (1, 2000, true),
       (1, 1000, false), (2, 1500, false), (1, 2000, true)] ∧
    observations (overflowEvents 2000 8000 9600) =
      [{ mData1 := 2000, mData2 := 1, mFlags := 0 ||| DISPLAY_AS_ERROR_FLAG, mType := 0,
         mStartingSampleInclusive := 8000, mEndingSampleInclusive := 9600 }] ∧
    markers (overflowEvents 2000 8000 9600) = [(8800, MarkerType.ErrorX)] ∧
    (2 ≤ cfg2.mMaxChan ∧ (true = true ↔ cfg2.mMaxChan < 2 + 1) ∧
      (true = true ↔ 2 = cfg2.mMaxChan)) :=
  ⟨by decide, by decide, by decide,
   (overflow_policy cfg2 1000000 5100 (synthEdges 5100 body3) []
      [StepResult.pulse
         (inRangeEvents 1000 1 5500 6100
           { marker := some MarkerType.UpArrow, mType := 1, prevs := [1000, 0] }) 1 [1000, 0],
       StepResult.pulse
         (inRangeEvents 1500 2 6500 7600
           { marker := some MarkerType.UpArrow, mType := 1, prevs := [1000, 1500] })
         2 [1000, 1500]]
      [] (overflowEvents 2000 8000 9600) 0 [1000, 1500]
      { mData1 := 2000, mData2 := 1, mFlags := 0 ||| DISPLAY_AS_ERROR_FLAG, mType := 0,
        mStartingSampleInclusive := 8000, mEndingSampleInclusive := 9600 }
      (by decide) (by decide) (by decide) (by decide) (by decide)).1,
   (overflow_policy cfg2 1000000 5100 (synthEdges 5100 body3) []
      [StepResult.pulse
         (inRangeEvents 1000 1 5500 6100
           { marker := some MarkerType.UpArrow, mType := 1, prevs := [1000, 0] }) 1 [1000, 0],
       StepResult.pulse
         (inRangeEvents 1500 2 6500 7600
           { marker := some MarkerType.UpArrow, mType := 1, prevs := [1000, 1500] })
         2 [1000, 1500]]
      [] (overflowEvents 2000 8000 9600) 0 [1000, 1500]
      { mData1 := 2000, mData2 := 1, mFlags := 0 ||| DISPLAY_AS_ERROR_FLAG, mType := 0,
        mStartingSampleInclusive := 8000, mEndingSampleInclusive := 9600 }
      (by decide) (by decide) (by decide) (by decide) (by decide)).2.1,
   (overflow_policy cfg2 1000000 5100 (synthEdges 5100 body3) []
      [StepResult.pulse
         (inRangeEvents 1000 1 5500 6100
           { marker := some MarkerType.UpArrow, mType := 1, prevs := [1000, 0] }) 1 [1000, 0],
       StepResult.pulse
         (inRangeEvents 1500 2 6500 7600
           { marker := some MarkerType.UpArrow, mType := 1, prevs := [1000, 1500] })
         2 [1000, 1500]]
      [] (overflowEvents 2000 8000 9600) 0 [1000, 1500]
      { mData1 := 2000, mData2 := 1, mFlags := 0 ||| DISPLAY_AS_ERROR_FLAG, mType := 0,
        mStartingSampleInclusive := 8000, mEndingSampleInclusive := 9600 }
      (by decide) (by decide) (by decide) (by decide) (by decide)).2.2.1⟩

/-! ## C7 and C18: the change detector on the widths of a run -/

/-- At a sample rate of 2048 Hz or more (in particular at the minimum rate the
analyzer declares, 1 MHz) every width `SamplesToUs` computes is below
`2 ^ 53`, so its conversion to `double` is exact. -/
theorem SamplesToUs_lt_of_rate {rate d w : Nat} (hrate : 2048 ≤ rate)
    (h : SamplesToUs rate d = some w) : w < 2 ^ 53 := by
  unfold SamplesToUs at h
  rw [if_neg (by omega)] at h
  injection h with h
  rw [← h]
  apply Nat.div_lt_of_lt_mul
  have h1 : d * 1000000 % 2 ^ 64 < 2 ^ 64 := Nat.mod_lt _ (by norm_num)
  have h2 : 2048 * 2 ^ 53 ≤ rate * 2 ^ 53 := Nat.mul_le_mul_right _ hrate
  omega

theorem widths_of_run (cfg : CPPMAnalyzerSettings) (rate start ch : Nat) (pv : List Nat)
    (edges : List Edge) (g : Frame)
    (hg : g ∈ observations (traceEvents (frameDecoder cfg rate start ch pv edges))) :
    ∃ d, SamplesToUs rate d = some g.mData1 := by
  obtain ⟨r, hr, hgr⟩ := mem_observations_traceEvents _ hg
  obtain ⟨s, e1, e2, ch', pv', hstep⟩ := mem_frameDecoder edges start ch pv hr
  cases r with
  | undefined => simp [StepResult.events, observations] at hgr
  | syncGap c p => simp [StepResult.events, observations] at hgr
  | pulse ev c p =>
    simp only [StepResult.events] at hgr
    obtain ⟨width, f, hw, hobs, hf, _⟩ := decoderStep_pulse_observation hstep.symm
    rw [hobs, List.mem_singleton] at hgr
    rw [hgr, hf]
    exact ⟨_, hw⟩

/-- C7: for every sample rate of at least 2048 Hz (every rate the analyzer
accepts: its declared minimum is 1 MHz), every in-range slot `s`, every new
width `w` computed by `SamplesToUs`, every stored previous width
`p = prevs[s-1]` (zero, or a width computed earlier) and every `mMinChange`:
a change is reported iff `|w - p| ≥ mMinChange` and `w ≠ p`.  When reported,
the frame type is 1, the marker is the up arrow (increase) if `w > p` and the
down arrow (decrease) otherwise, and `prevs[s-1]` becomes `w`; when not
reported there is no marker, the frame type is 0 and the table is left
unmodified. -/
theorem change_policy (cfg : CPPMAnalyzerSettings) (rate d w s p : Nat) (prevs : List Nat)
    (hrate : 2048 ≤ rate) (hw : SamplesToUs rate d = some w) (hs : 1 ≤ s)
    (hp : prevs[s - 1]? = some p)
    (hprev : p = 0 ∨ ∃ d', SamplesToUs rate d' = some p) :
    changeDetector cfg w s prevs =
      if cfg.mMinChange ≤ absDiff w p ∧ w ≠ p then
        some { marker := some (if p < w then MarkerType.UpArrow else MarkerType.DownArrow),
               mType := 1, prevs := prevs.set (s - 1) w }
      else some { marker := none, mType := 0, prevs := prevs } := by
  have hwb : w < 2 ^ 53 := SamplesToUs_lt_of_rate hrate hw
  have hpb : p < 2 ^ 53 := by
    rcases hprev with h0 | ⟨d', hd'⟩
    · rw [h0]
      norm_num
    · exact SamplesToUs_lt_of_rate hrate hd'
  exact changeDetector_policy_exact cfg w s p prevs hs hp hwb hpb

/-- C7, witness: at the declared minimum rate of 1 MHz with `mMinChange = 10`,
channel 1 going from 1000 to 1004 is classified none (table unchanged) and
from 1000 to 1015 is classified increase (up arrow, table updated). -/
theorem change_policy_witness :
    (2048 ≤ GetMinimumSampleRateHz ∧ SamplesToUs GetMinimumSampleRateHz 1004 = some 1004) ∧
    changeDetector cfg3 1004 1 [1000, 0, 0] =
      some { marker := none, mType := 0, prevs := [1000, 0, 0] } ∧
    changeDetector cfg3 1015 1 [1000, 0, 0] =
      some { marker := some MarkerType.UpArrow, mType := 1, prevs := [1015, 0, 0] } :=
  ⟨by decide,
   (change_policy cfg3 GetMinimumSampleRateHz 1004 1004 1 1000 [1000, 0, 0] (by decide)
      (by decide) (by decide) rfl (Or.inr ⟨1000, by decide⟩)).trans (by decide),
   (change_policy cfg3 GetMinimumSampleRateHz 1015 1015 1 1000 [1000, 0, 0] (by decide)
      (by decide) (by decide) rfl (Or.inr ⟨1000, by decide⟩)).trans (by decide)⟩

/-- C18: in every run of the worker's decoder loop at a sample rate of at
least 2048 Hz (every rate the analyzer accepts: its declared minimum is
1 MHz), for every slot `s`, immediately after every in-range (non-error)
observation on `s` with width `w` the stored entry `q = prevs[s-1]` satisfies
`q = w` or `|w - q| < mMinChange`; so with `mMinChange = 0` the entry equals
the width just observed, and with `mMinChange > 0` it differs from it by at
most `mMinChange - 1`. -/
theorem bounded_drift (cfg : CPPMAnalyzerSettings) (rate start : Nat) (edges : List Edge)
    (ev : List Event) (c : Nat) (p : List Nat) (f : Frame) (hrate : 2048 ≤ rate)
    (hr : StepResult.pulse ev c p ∈
      frameDecoder cfg rate start 0 (List.replicate cfg.mMaxChan 0) edges)
    (hobs : observations ev = [f]) (hin : f.isError = false) :
    ∃ q, p[f.mData2 - 1]? = some q ∧
      (q = f.mData1 ∨ absDiff f.mData1 q < cfg.mMinChange) ∧
      (cfg.mMinChange = 0 → q = f.mData1) ∧
      (0 < cfg.mMinChange → absDiff f.mData1 q ≤ cfg.mMinChange - 1) := by
  refine drift_of_exact_widths cfg rate start edges ev c p f ?_ hr hobs hin
  intro g hg
  obtain ⟨d, hd⟩ := widths_of_run cfg rate start 0 _ edges g hg
  exact SamplesToUs_lt_of_rate hrate hd

/-- C18, witness: one channel with hysteresis 10 µs at 1 MHz; after the width
1000 has been stored, the observation of width 1006 in the next frame is not
reported and leaves the entry at 1000, within 9 µs of the width. -/
theorem bounded_drift_witness :
    frameDecoder cfg1 GetMinimumSampleRateHz 0 0 [0] (synthEdges 0 hysteresisBody) =
      hysteresisBefore ++ [StepResult.pulse hysteresisThird 1 [1012]] ∧
    ∃ q, [1000][1 - 1]? = some q ∧
      (q = 1006 ∨ absDiff 1006 q < cfg1.mMinChange) ∧
      (cfg1.mMinChange = 0 → q = 1006) ∧
      (0 < cfg1.mMinChange → absDiff 1006 q ≤ cfg1.mMinChange - 1) :=
  ⟨by decide,
   bounded_drift cfg1 GetMinimumSampleRateHz 0 (synthEdges 0 hysteresisBody)
     (inRangeEvents 1006 1 6400 7006 { marker := none, mType := 0, prevs := [1000] }) 1 [1000]
     { mData1 := 1006, mData2 := 1, mFlags := 0, mType := 0,
       mStartingSampleInclusive := 6400, mEndingSampleInclusive := 7006 }
     (by decide) (by decide) (by decide) (by decide)⟩

/-! ## C9: one observation per pulse -/

theorem decoderStep_of_boundary {cfg : CPPMAnalyzerSettings} {rate start : Nat} {e1 e2 : Edge}
    {ch : Nat} {pv : List Nat} {width : Nat}
    (hw : SamplesToUs rate (subU64 e2.sample start) = some width)
    (hb : cfg.mSyncTime ≤ width ∧ CorrectSyncDir cfg e2.state = true) :
    decoderStep cfg rate start e1 e2 ch pv = StepResult.syncGap 0 pv := by
  unfold decoderStep
  simp only [hw]
  rw [if_pos hb]

theorem decoderStep_of_overflow {cfg : CPPMAnalyzerSettings} {rate start : Nat} {e1 e2 : Edge}
    {ch : Nat} {pv : List Nat} {width : Nat}
    (hw : SamplesToUs rate (subU64 e2.sample start) = some width)
    (hb : ¬ (cfg.mSyncTime ≤ width ∧ CorrectSyncDir cfg e2.state = true))
    (hov : cfg.mMaxChan < (ch + 1) % 256) :
    decoderStep cfg rate start e1 e2 ch pv =
      StepResult.pulse (overflowEvents width e1.sample e2.sample) 0 pv := by
  unfold decoderStep
  simp only [hw]
  rw [if_neg hb, if_pos hov]

theorem syncAcquire_congr {cfg cfg' : CPPMAnalyzerSettings} (rate : Nat)
    (hT : cfg'.mSyncTime = cfg.mSyncTime) (hdir : cfg'.mSyncDir = cfg.mSyncDir)
    (edges : List Edge) : ∀ cur : Nat,
    syncAcquire cfg' rate cur edges = syncAcquire cfg rate cur edges := by
  induction edges with
  | nil => intro cur; rfl
  | cons e es ih =>
    intro cur
    simp only [syncAcquire, hT, CorrectSyncDir_congr hdir, ih]

/-- C14, amended: the engine does not validate its configuration.  With
`mMaxChan = 0` and a positive sample rate it starts: the sync acquirer runs
exactly as for any other `mMaxChan` (on each edge it locks iff the interval
reaches `mSyncTime` and the polarity test accepts the level, and goes on to
the next edge otherwise), and on lock the worker thread emits the lock marker
at the lock point and enters the decoder loop.  There every iteration is
either a sync gap or, when the boundary test fails, an error-flagged
observation (the empty table is never indexed and no iteration is undefined),
so every observation emitted is error-flagged, with slot 1 and frame type
0. -/
theorem engine_without_validation (cfg : CPPMAnalyzerSettings) (rate sample : Nat)
    (edges : List Edge) (hmax : cfg.mMaxChan = 0) (hrate : 0 < rate) :
    (∀ cfg' : CPPMAnalyzerSettings, cfg'.mSyncTime = cfg.mSyncTime →
      cfg'.mSyncDir = cfg.mSyncDir →
      syncAcquire cfg' rate sample edges = syncAcquire cfg rate sample edges) ∧
    (∀ (cur : Nat) (e : Edge) (es : List Edge),
      syncAcquire cfg rate cur (e :: es) =
        if cfg.mSyncTime ≤ subU64 e.sample cur * 1000000 % 2 ^ 64 / rate ∧
            CorrectSyncDir cfg e.state = true then
          AcquireResult.locked e.sample e.state es
        else syncAcquire cfg rate e.sample es) ∧
    (∀ pos st rest, syncAcquire cfg rate sample edges = AcquireResult.locked pos st rest →
      WorkerThread cfg rate sample edges =
        Event.AddMarker pos MarkerType.Dot ::
          traceEvents (frameDecoder cfg rate pos 0 (List.replicate cfg.mMaxChan 0) rest) ∧
      lockMarkers (WorkerThread cfg rate sample edges) = [pos] ∧
      ∀ r ∈ frameDecoder cfg rate pos 0 (List.replicate cfg.mMaxChan 0) rest,
        ∃ pre e1 e2 post width, rest = pre ++ e1 :: e2 :: post ∧ pre.length % 2 = 0 ∧
          SamplesToUs rate (subU64 e2.sample (positionAfter pos pre)) = some width ∧
          r = if cfg.mSyncTime ≤ width ∧ CorrectSyncDir cfg e2.state = true then
                StepResult.syncGap 0 []
              else StepResult.pulse (overflowEvents width e1.sample e2.sample) 0 []) ∧
    (∀ f ∈ observations (WorkerThread cfg rate sample edges),
      f.isError = true ∧ f.mData2 = 1 ∧ f.mType = 0) := by
  have hstep : ∀ (rest : List Edge) (pos : Nat),
      ∀ r ∈ frameDecoder cfg rate pos 0 (List.replicate cfg.mMaxChan 0) rest,
        ∃ pre e1 e2 post width, rest = pre ++ e1 :: e2 :: post ∧ pre.length % 2 = 0 ∧
          SamplesToUs rate (subU64 e2.sample (positionAfter pos pre)) = some width ∧
          r = if cfg.mSyncTime ≤ width ∧ CorrectSyncDir cfg e2.state = true then
                StepResult.syncGap 0 []
              else StepResult.pulse (overflowEvents width e1.sample e2.sample) 0 [] := by
    intro rest pos r hr
    obtain ⟨pre, e1, e2, post, ch, pv, hedges, heven, ⟨hch, hlen⟩, hstep⟩ :=
      frameDecoder_bounded_steps cfg rate rest pos r hr
    have hch0 : ch = 0 := by omega
    have hpv : pv = [] := List.length_eq_zero.1 (by omega)
    subst hch0
    subst hpv
    have hw := SamplesToUs_pos hrate (subU64 e2.sample (positionAfter pos pre))
    refine ⟨pre, e1, e2, post, _, hedges, heven, hw, ?_⟩
    by_cases hb : cfg.mSyncTime ≤
        subU64 e2.sample (positionAfter pos pre) * 1000000 % 2 ^ 64 / rate ∧
        CorrectSyncDir cfg e2.state = true
    · rw [if_pos hb, hstep]
      exact decoderStep_of_boundary hw hb
    · rw [if_neg hb, hstep]
      exact decoderStep_of_overflow hw hb (by rw [hmax]; decide)
  refine ⟨fun cfg' hT hdir => syncAcquire_congr rate hT hdir edges sample, ?_, ?_, ?_⟩
  · intro cur e es
    exact syncAcquire_cons cfg rate cur e es (SamplesToUs_pos hrate _)
  · intro pos st rest hlock
    have hW : WorkerThread cfg rate sample edges =
        Event.AddMarker pos MarkerType.Dot ::
          traceEvents (frameDecoder cfg rate pos 0 (List.replicate cfg.mMaxChan 0) rest) := by
      unfold WorkerThread
      simp only [hlock]
    refine ⟨hW, ?_, hstep rest pos⟩
    rw [hW]
    simp only [lockMarkers, lockMarkers_frameDecoder]
  · intro f hf
    unfold WorkerThread at hf
    cases ha : syncAcquire cfg rate sample edges with
    | blocked => simp [ha, observations] at hf
    | undefined => simp [ha, observations] at hf
    | locked pos st rest =>
      simp only [ha, observations] at hf
      obtain ⟨r, hr, hfr⟩ := mem_observations_traceEvents _ hf
      obtain ⟨pre, e1, e2, post, width, _, _, _, hres⟩ := hstep rest pos r hr
      by_cases hb : cfg.mSyncTime ≤ width ∧ CorrectSyncDir cfg e2.state = true
      · rw [if_pos hb] at hres
        rw [hres] at hfr
        simp [StepResult.events, observations] at hfr
      · rw [if_neg hb] at hres
        rw [hres] at hfr
        simp only [StepResult.events, observations_overflowEvents, List.mem_singleton] at hfr
        rw [hfr]
        exact ⟨by simp [Frame.isError, DISPLAY_AS_ERROR_FLAG], rfl, rfl⟩

/-- C14, witness: with `mMaxChan = 0` at 1 MHz on the stream sync + `[1000,
1500, 2000]` the acquirer locks at sample 5100, the lock marker is emitted
there, and the three pulses are decoded into three error-flagged observations
with slot 1. -/
theorem engine_without_validation_witness :
    (syncAcquire cfg0 1000000 0 stream3 =
        AcquireResult.locked 5100 BitState.BIT_LOW (synthEdges 5100 body3) ∧
      (observations (WorkerThread cfg0 1000000 0 stream3)).map
          (fun f => (f.mData2, f.mData1, f.isError)) =
        [(1, 1000, true), (1, 1500, true), (1, 2000, true)]) ∧
    lockMarkers (WorkerThread cfg0 1000000 0 stream3) = [5100] ∧
    (∀ f ∈ observations (WorkerThread cfg0 1000000 0 stream3),
      f.isError = true ∧ f.mData2 = 1 ∧ f.mType = 0) :=
  ⟨by decide,
   ((engine_without_validation cfg0 1000000 0 stream3 rfl (by decide)).2.2.1 5100
      BitState.BIT_LOW (synthEdges 5100 body3) (by decide)).2.1,
   (engine_without_validation cfg0 1000000 0 stream3 rfl (by decide)).2.2.2⟩

end CPPM
